import Mathlib

/-!
Verification of the skill validator (`validate_skill.py`).

Text is modelled as `List Char` (Python `str`).  Every definition below is a
direct translation of the corresponding Python function or statement; regular
expressions are translated to their matching semantics on character lists.
-/

namespace VSkill

abbrev Str := List Char

/-- Python whitespace for `str.strip` / `str.split` / regex `\s`:
space, tab, newline, carriage return, vertical tab, form feed. -/
def isPyWs (c : Char) : Bool :=
  c = ' ' || c = '\t' || c = '\n' || c = '\r' || c = Char.ofNat 11 || c = Char.ofNat 12

/-- Remove leading characters satisfying `p` (left part of `str.strip`). -/
def lstripBy (p : Char → Bool) (s : Str) : Str := s.dropWhile p

/-- Remove trailing characters satisfying `p` (right part of `str.strip`):
a character is kept iff something after it survives or it fails `p`. -/
def rstripBy (p : Char → Bool) : Str → Str
  | [] => []
  | c :: rest =>
    match rstripBy p rest with
    | [] => if p c then [] else [c]
    | x :: xs => c :: x :: xs

/-- Python `str.lstrip()`. -/
def lstrip (s : Str) : Str := lstripBy isPyWs s

/-- Python `str.rstrip()`. -/
def rstrip (s : Str) : Str := rstripBy isPyWs s

/-- Python `str.strip()`. -/
def strip (s : Str) : Str := rstrip (lstrip s)

/-- Python `str.strip(cs)` for a character set `cs`. -/
def stripSet (cs : List Char) (s : Str) : Str :=
  rstripBy (fun c => cs.contains c) (lstripBy (fun c => cs.contains c) s)

/-- Python `str.lstrip(cs)` for a character set `cs`. -/
def lstripSet (cs : List Char) (s : Str) : Str := lstripBy (fun c => cs.contains c) s

/-- Python `str.lower()` (ASCII case folding, as used on ASCII data here). -/
def lowerStr (s : Str) : Str := s.map Char.toLower

/-- Python `" ".join(ls)`. -/
def joinSpace : List Str → Str
  | [] => []
  | [l] => l
  | l :: ls => l ++ ' ' :: joinSpace ls

/-- Helper for `str.split("\n")`: accumulate the current segment (reversed). -/
def splitNLAux : Str → Str → List Str
  | [], acc => [acc.reverse]
  | c :: rest, acc => if c = '\n' then acc.reverse :: splitNLAux rest [] else splitNLAux rest (c :: acc)

/-- Python `str.split("\n")`. -/
def splitNL (s : Str) : List Str := splitNLAux s []

/-- Helper for `str.split()` (whitespace split, empties dropped). -/
def pySplitAux : Str → Str → List Str
  | [], acc => if acc = [] then [] else [acc.reverse]
  | c :: rest, acc =>
    if isPyWs c then
      if acc = [] then pySplitAux rest [] else acc.reverse :: pySplitAux rest []
    else pySplitAux rest (c :: acc)

/-- Python `str.split()` with no argument. -/
def pySplit (s : Str) : List Str := pySplitAux s []

/-- `word_count` from the source: `len(text.split())`. -/
def word_count (text : Str) : Nat := (pySplit text).length

/-- Python `text.find(pat)` restricted to the searched suffix: index of the first
occurrence of `pat`, if any. -/
def findSub (pat : Str) : Str → Option Nat
  | [] => if pat = [] then some 0 else none
  | c :: rest => if pat.isPrefixOf (c :: rest) then some 0 else (findSub pat rest).map (· + 1)

/-- `count_chars_excluding_frontmatter` from the source: split content into
frontmatter YAML and body text.  `text.find("---", 3)` is modelled by searching
`text.drop 3` and shifting the index. -/
def count_chars_excluding_frontmatter (text : Str) : Str × Str :=
  if ("---".data).isPrefixOf text then
    match (findSub "---".data (text.drop 3)).map (· + 3) with
    | some e => (strip ((text.drop 3).take (e - 3)), strip (text.drop (e + 3)))
    | none => ([], text)
  else ([], text)

/-! ### `is_kebab_case`: `re.fullmatch(r"[a-z0-9]+(-[a-z0-9]+)*", name)`

The pattern is matched by the evident deterministic automaton: `seen` records
whether the current `[a-z0-9]+` segment already has at least one character. -/

/-- A character of the regex class `[a-z0-9]`. -/
def isKebabChar (c : Char) : Bool := c.isLower || c.isDigit

/-- Automaton for `[a-z0-9]+(-[a-z0-9]+)*`; `seen` is true when at least one
segment character has been consumed since the start or the last hyphen. -/
def kebabRun : Bool → Str → Bool
  | seen, [] => seen
  | seen, c :: rest =>
    if isKebabChar c then kebabRun true rest
    else if c = '-' then seen && kebabRun false rest
    else false

/-- `is_kebab_case` from the source. -/
def is_kebab_case (s : Str) : Bool := kebabRun false s

/-! ### Substring search (Python `in`, `re.search(r"[<>]", ...)` etc.) -/

/-- `pat` occurs as a contiguous substring of the argument. -/
def containsSub (pat : Str) : Str → Bool
  | [] => pat.isPrefixOf []
  | c :: rest => pat.isPrefixOf (c :: rest) || containsSub pat rest

/-! ### Rule 5 closing-delimiter regex:
`re.search(r"^---\s*\n(.*?)\n---", raw, re.DOTALL | re.MULTILINE)`.

A match starting at a line start consists of `---`, then a whitespace run
containing the mandatory `\n`, then (lazily) anything, then `\n---`.  Since only
existence matters, the lazy group reduces to a substring search for `"\n---"`
after some `\n` inside the leading whitespace run. -/

/-- After the `---`: scan the `\s*` region; at each `\n` inside it either use it
as the mandatory `\n` (then `(.*?)\n---` means the rest contains `"\n---"`) or
keep it inside `\s*`. -/
def wsNewline : Str → Bool
  | [] => false
  | c :: rest =>
    if c = '\n' then containsSub "\n---".data rest || wsNewline rest
    else if isPyWs c then wsNewline rest
    else false

/-- Does `^---\s*\n(.*?)\n---` match exactly at this position? -/
def matchClose (s : Str) : Bool := ("---".data).isPrefixOf s && wsNewline (s.drop 3)

/-- Scan all positions; `atStart` records whether the position is a line start
(`re.MULTILINE` anchors `^` to position 0 and positions after a newline). -/
def searchCloAux : Bool → Str → Bool
  | _, [] => false
  | atStart, c :: rest => (atStart && matchClose (c :: rest)) || searchCloAux (c == '\n') rest

/-- `re.search(r"^---\s*\n(.*?)\n---", raw, re.DOTALL | re.MULTILINE) is not None`. -/
def searchClo (s : Str) : Bool := searchCloAux true s

/-! ### `name` extraction: `re.search(r"^name:\s*(.+)$", fm, re.MULTILINE)`.

After `name:` the engine takes the longest all-whitespace run `\s*` (with
backtracking) such that `(.+)$` still matches, i.e. such that the next
character exists and is not a newline; the group is then the rest of that
line.  `nameGroup` implements exactly this preference for the longest run. -/

/-- Group 1 of `\s*(.+)$` on the text following `name:`, if the tail admits a
match.  Recursion first tries to extend `\s*` past a whitespace character and
falls back to starting `(.+)` there (possible unless the character is `\n`). -/
def nameGroup : Str → Option Str
  | [] => none
  | c :: rest =>
    if isPyWs c then
      match nameGroup rest with
      | some g => some g
      | none => if c = '\n' then none else some ((c :: rest).takeWhile (fun x => x ≠ '\n'))
    else some ((c :: rest).takeWhile (fun x => x ≠ '\n'))

/-- Scan for the first line start where `name:` begins and the rest matches. -/
def findNameAux : Bool → Str → Option Str
  | _, [] => none
  | atStart, c :: rest =>
    match (if atStart && ("name:".data).isPrefixOf (c :: rest) then nameGroup ((c :: rest).drop 5) else none) with
    | some g => some g
    | none => findNameAux (c == '\n') rest

/-- `name_match.group(1).strip().strip('"\'')` with `""` when there is no match. -/
def nameValueOf (fm : Str) : Str :=
  match findNameAux true fm with
  | some g => stripSet ['"', '\''] (strip g)
  | none => []

/-! ### `description` extraction:
`re.search(r"^description:\s*(.*(?:\n  .*)*)", fm, re.MULTILINE)`, whole match.

At the first line start carrying `description:` the pattern always matches;
the match extends over the maximal `\s*` run, the rest of that line, and every
following continuation line introduced by `"\n  "` (newline plus two spaces). -/

/-- The `(?:\n  .*)*` part: greedily absorb continuation lines.  The first
argument is fuel (the caller passes the length of the string). -/
def contLines : Nat → Str → Str
  | 0, _ => []
  | fuel + 1, '\n' :: ' ' :: ' ' :: r =>
    '\n' :: ' ' :: ' ' :: (r.takeWhile (fun x => x ≠ '\n') ++
      contLines fuel (r.dropWhile (fun x => x ≠ '\n')))
  | _ + 1, _ => []

/-- Whole match (`group(0)`) of the description pattern given the text after
`description:`. -/
def descGroupAt (t : Str) : Str :=
  let w := t.takeWhile isPyWs
  let u := t.dropWhile isPyWs
  let fl := u.takeWhile (fun x => x ≠ '\n')
  let rest := u.dropWhile (fun x => x ≠ '\n')
  "description:".data ++ w ++ fl ++ contLines rest.length rest

/-- Scan for the first line start where `description:` begins. -/
def findDescAux : Bool → Str → Option Str
  | _, [] => none
  | atStart, c :: rest =>
    if atStart && ("description:".data).isPrefixOf (c :: rest) then
      some (descGroupAt ((c :: rest).drop 12))
    else findDescAux (c == '\n') rest

/-- One step of the cleaning loop over `raw_desc.split("\n")`. -/
def cleanLine (l : Str) : Str :=
  let l := strip l
  if ("description:".data).isPrefixOf l then
    strip (lstripSet ['>', '|'] (strip (l.drop 12)))
  else l

/-- `" ".join(l for l in cleaned if l)` over the cleaned lines. -/
def descProcess (g : Str) : Str :=
  joinSpace (((splitNL g).map cleanLine).filter (fun l => l ≠ []))

/-- The extracted `desc_value` (empty when the pattern finds no match). -/
def descValueOf (fm : Str) : Str :=
  match findDescAux true fm with
  | some g => descProcess g
  | none => []

/-! ### Result model and the check runner -/

/-- The `CheckResult` dataclass. -/
structure CheckResult where
  label : Str
  passed : Bool
  detail : Str := []
  fix : Str := []
deriving DecidableEq, Repr

/-- Abstraction of the file-system facts `run_checks` consumes: whether the
argument resolves to a directory, the absolute path and basename strings, the
directory entries, and the contents of `SKILL.md` (meaningful only when that
entry exists). -/
structure FsInput where
  isDir : Bool
  skillDirAbs : Str
  folderName : Str
  entries : List Str
  raw : Str
deriving DecidableEq, Repr

/-- The reserved-word tuple `("claude", "anthropic")`. -/
def reservedWords : List Str := ["claude".data, "anthropic".data]

/-- The trigger-signal list. -/
def triggerSignals : List Str := ["use when".data, "use for".data, "trigger".data, "activate".data]

/-- `frontmatter_raw` for a run. -/
def fmOf (fs : FsInput) : Str := (count_chars_excluding_frontmatter fs.raw).1

/-- `body` for a run. -/
def bodyOf (fs : FsInput) : Str := (count_chars_excluding_frontmatter fs.raw).2

/-- `name_value` for a run. -/
def nvOf (fs : FsInput) : Str := nameValueOf (fmOf fs)

/-- `desc_value` for a run. -/
def dvOf (fs : FsInput) : Str := descValueOf (fmOf fs)

/-- `folder_ok` for a run. -/
def folderOkOf (fs : FsInput) : Bool := is_kebab_case fs.folderName

/-- `wrong_case` for a run. -/
def wrongCaseOf (fs : FsInput) : List Str :=
  fs.entries.filter (fun e => lowerStr e == "skill.md".data && !(e == "SKILL.md".data))

/-- `reserved_found` for a run (`next(...)` over the reserved tuple). -/
def reservedFoundOf (fs : FsInput) : Option Str :=
  reservedWords.find? (fun r => containsSub r (lowerStr (nvOf fs)))

/-- Rule 1 failure result. -/
def resultNoDir (fs : FsInput) : CheckResult :=
  { label := "Skill directory exists".data, passed := false,
    detail := "\x27".data ++ fs.skillDirAbs ++ "\x27 is not a directory or does not exist.".data,
    fix := "Check the path and try again.".data }

/-- Rule 1 success result. -/
def result1 (fs : FsInput) : CheckResult :=
  { label := "Skill directory exists".data, passed := true, detail := fs.skillDirAbs }

/-- Rule 2 failure result. -/
def result2fail (fs : FsInput) : CheckResult :=
  { label := "SKILL.md found (exact case)".data, passed := false,
    detail :=
      if wrongCaseOf fs = [] then "SKILL.md not found.".data
      else "Found \x27".data ++ (wrongCaseOf fs).headD [] ++ "\x27 instead.".data,
    fix := "Rename the file to exactly \x27SKILL.md\x27 (case-sensitive).".data }

/-- Rule 2 success result. -/
def result2ok : CheckResult :=
  { label := "SKILL.md found (exact case)".data, passed := true }

/-- Rule 3: no README.md inside the folder. -/
def result3 (fs : FsInput) : CheckResult :=
  { label := "No README.md inside skill folder".data,
    passed := !(fs.entries.any (fun e => lowerStr e == "readme.md".data)),
    fix := "Remove README.md from the skill folder. A repo-level README is fine, but not inside the skill directory.".data }

/-- Rule 4: folder name is kebab-case. -/
def result4 (fs : FsInput) : CheckResult :=
  { label := "Folder name is kebab-case: ".data ++ fs.folderName,
    passed := folderOkOf fs,
    fix := "Rename the folder using only lowercase letters and hyphens (e.g., \x27my-skill\x27).".data }

/-- Rule 5: frontmatter delimiters. -/
def result5 (fs : FsInput) : CheckResult :=
  { label := "YAML frontmatter has --- delimiters".data,
    passed := ("---".data).isPrefixOf (lstrip fs.raw) && searchClo fs.raw,
    fix := "Wrap your frontmatter with --- at the top and --- on a new line after the fields.".data }

/-- Rule 6: `name` field present. -/
def result6 (fs : FsInput) : CheckResult :=
  { label := "name field is present in frontmatter".data,
    passed := !(nvOf fs).isEmpty,
    fix := "Add \x27name: your-skill-name\x27 to the YAML frontmatter.".data }

/-- Rule 7: `name` is kebab-case (emitted only when a name was extracted). -/
def result7 (fs : FsInput) : CheckResult :=
  { label := "name is valid kebab-case: ".data ++ nvOf fs,
    passed := is_kebab_case (nvOf fs),
    fix := "Use only lowercase letters and hyphens in the name field.".data }

/-- Rule 8: `name` matches the folder name. -/
def result8 (fs : FsInput) : CheckResult :=
  { label := "name field matches folder name (".data ++ nvOf fs ++ " == ".data ++ fs.folderName ++ ")".data,
    passed := nvOf fs == fs.folderName,
    fix := "Either rename the folder to \x27".data ++ nvOf fs ++ "\x27 or update the name field to \x27".data ++ fs.folderName ++ "\x27.".data }

/-- Rule 9: no reserved keywords in the name. -/
def result9 (fs : FsInput) : CheckResult :=
  { label := "name contains no reserved keywords (claude, anthropic)".data,
    passed := (reservedFoundOf fs).isNone,
    fix := "Remove \x27".data ++ ((reservedFoundOf fs).getD "None".data) ++ "\x27 from the skill name — these are reserved by Anthropic.".data }

/-- Rule 10: `description` field present. -/
def result10 (fs : FsInput) : CheckResult :=
  { label := "description field is present".data,
    passed := !(dvOf fs).isEmpty,
    fix := "Add a description field to the YAML frontmatter.".data }

/-- Rule 11: description length at most 1024 characters. -/
def result11 (fs : FsInput) : CheckResult :=
  { label := "description length: ".data ++ (Nat.repr (dvOf fs).length).data ++ " chars (limit: 1024)".data,
    passed := decide ((dvOf fs).length ≤ 1024),
    fix := "Shorten the description by ".data ++ (Int.repr ((dvOf fs).length - 1024 : Int)).data ++ " characters.".data }

/-- Rule 12: no angle brackets in the description. -/
def result12 (fs : FsInput) : CheckResult :=
  { label := "description contains no XML angle brackets < >".data,
    passed := !((dvOf fs).any (fun c => c == '<' || c == '>')),
    fix := "Remove all < and > characters from the description (security restriction).".data }

/-- Rule 13: description contains a trigger signal. -/
def result13 (fs : FsInput) : CheckResult :=
  { label := "description contains trigger signal (\x27Use when\x27, \x27Use for\x27, etc.)".data,
    passed := triggerSignals.any (fun sig => containsSub sig (lowerStr (dvOf fs))),
    fix := "Add \x27Use when user asks to [action]\x27 or similar trigger condition to the description.".data }

/-- Rule 14: no angle brackets in the body. -/
def result14 (fs : FsInput) : CheckResult :=
  { label := "No XML angle brackets < > in SKILL.md body".data,
    passed := !((bodyOf fs).any (fun c => c == '<' || c == '>')),
    fix := "Remove all < and > characters from the skill body (security restriction).".data }

/-- Rule 15: word count at most 5000 over the raw document. -/
def result15 (fs : FsInput) : CheckResult :=
  { label := "Word count: ".data ++ (Nat.repr (word_count fs.raw)).data ++ " words (limit: 5000)".data,
    passed := decide (word_count fs.raw ≤ 5000),
    fix := "Move detailed documentation to a references/ file and link to it from SKILL.md.".data }

/-- The content checks (rules 3-15), appended once rules 1 and 2 both pass.
Conditional rules mirror the `if name_value:` / `if desc_value:` guards. -/
def contentResults (fs : FsInput) : List CheckResult :=
  [result3 fs, result4 fs, result5 fs, result6 fs]
  ++ (if nvOf fs = [] then [] else [result7 fs])
  ++ (if nvOf fs = [] then [] else if folderOkOf fs then [result8 fs] else [])
  ++ (if nvOf fs = [] then [] else [result9 fs])
  ++ [result10 fs]
  ++ (if dvOf fs = [] then [] else [result11 fs])
  ++ (if dvOf fs = [] then [] else [result12 fs])
  ++ (if dvOf fs = [] then [] else [result13 fs])
  ++ [result14 fs, result15 fs]

/-- `run_checks` from the source: rule 1 and rule 2 short-circuit, the content
rules are appended afterwards. -/
def run_checks (fs : FsInput) : List CheckResult :=
  if fs.isDir = false then [resultNoDir fs]
  else if fs.entries.filter (fun e => e == "SKILL.md".data) = [] then
    [result1 fs, result2fail fs]
  else
    [result1 fs, result2ok] ++ contentResults fs

/-- `print_report`: prints the report and returns the count of failures (the
loop increments `failures` for every result that did not pass). -/
def print_report (results : List CheckResult) : Nat :=
  results.foldl (fun n r => if r.passed then n else n + 1) 0

/-- Outcome of `main`: whether the usage text was printed, and the exit code. -/
structure MainOutcome where
  usagePrinted : Bool
  exitCode : Nat
deriving DecidableEq, Repr

/-- `main`: with fewer than two `argv` entries print the usage docstring and
exit 1; otherwise run the checks, print the report, and exit 1 exactly when
some check failed. -/
def mainModel (argv : List Str) (fs : FsInput) : MainOutcome :=
  if argv.length < 2 then { usagePrinted := true, exitCode := 1 }
  else
    { usagePrinted := false,
      exitCode := if print_report (run_checks fs) > 0 then 1 else 0 }

/-! ### Scaffolder model (the scaffolder script is not under `src/`) -/

/-- Modelled from the spec: the scaffolder's CLI arguments (section 6). The
scaffolder source file itself is absent from `src/`. -/
structure ScaffoldArgs where
  name : Str
  author : Str
  category : Str
  outputDir : Str
  tags : List Str
  withScripts : Bool
  withReferences : Bool
  withAssets : Bool
  dryRun : Bool
deriving DecidableEq, Repr

/-- Helper for splitting a name on hyphens. -/
def splitDashAux : Str → Str → List Str
  | [], acc => [acc.reverse]
  | c :: rest, acc => if c = '-' then acc.reverse :: splitDashAux rest [] else splitDashAux rest (c :: acc)

/-- Hyphen-delimited segments of a name. -/
def splitDash (s : Str) : List Str := splitDashAux s []

/-- Modelled from the spec: scaffolder name validation - the validator's
kebab-case pattern plus the stricter reserved check (rejects names that start
with, or contain as a hyphen-delimited segment, a reserved word). -/
def scaffoldNameOk (n : Str) : Bool :=
  is_kebab_case n &&
    !(reservedWords.any (fun r => r.isPrefixOf n || (splitDash n).contains r))

/-- Modelled from the spec: the filled manifest template (the claim under
verification does not depend on its exact text, only on when it is written). -/
def filledTemplate (a : ScaffoldArgs) : Str :=
  "---\nname: ".data ++ a.name ++ "\ndescription: \nmetadata:\n  author: ".data ++ a.author
    ++ "\n  category: ".data ++ a.category
    ++ "\n  tags: ".data ++ joinSpace ((a.tags.map strip).filter (fun t => t ≠ []))
    ++ "\n---\n".data

/-- Modelled from the spec: the ScaffoldPlan - a mapping from target path to
literal content or a null marker for an empty placeholder file. -/
def scaffoldPlan (a : ScaffoldArgs) : List (Str × Option Str) :=
  let base := a.outputDir ++ '/' :: a.name
  (base ++ "/SKILL.md".data, some (filledTemplate a))
    :: (if a.withScripts then [(base ++ "/scripts/.gitkeep".data, none)] else [])
    ++ (if a.withReferences then [(base ++ "/references/.gitkeep".data, none)] else [])
    ++ (if a.withAssets then [(base ++ "/assets/.gitkeep".data, none)] else [])

/-- A single file-system write performed by the scaffolder. -/
inductive FsWrite where
  | mkdirFor (path : Str)
  | fileWrite (path : Str) (content : Str)
deriving DecidableEq, Repr

/-- Modelled from the spec: one scaffolder run.  Returns the list of
file-system writes performed, the exit code, and the preview lines rendered.
Invalid name and pre-existing target directory are fatal before any write;
dry-run renders the plan as a preview and performs zero writes. -/
def scaffoldRun (a : ScaffoldArgs) (targetDirExists : Bool) : List FsWrite × Nat × List Str :=
  if !scaffoldNameOk a.name then ([], 1, ["Invalid skill name".data])
  else if targetDirExists then ([], 1, ["Target directory already exists".data])
  else if a.dryRun then
    ([], 0, (scaffoldPlan a).map (fun pc => pc.1))
  else
    ((scaffoldPlan a).map (fun pc =>
        match pc.2 with
        | some content => FsWrite.fileWrite pc.1 content
        | none => FsWrite.fileWrite pc.1 []),
      0, (scaffoldPlan a).map (fun pc => pc.1))

/-! ### Specification-side predicates -/

/-- A lowercase-alphanumeric, nonempty segment. -/
def KebabSeg (seg : Str) : Prop :=
  seg ≠ [] ∧ ∀ c ∈ seg, (c.isLower = true ∨ c.isDigit = true)

/-- The uppercase ASCII letters. -/
def upperLetters : Str := "ABCDEFGHIJKLMNOPQRSTUVWXYZ".data

/-- `('-' :: seg)` for each further segment. -/
def dashTail : List Str → Str
  | [] => []
  | seg :: rest => '-' :: (seg ++ dashTail rest)

/-- Segments joined by single hyphens. -/
def joinDash : List Str → Str
  | [] => []
  | seg :: rest => seg ++ dashTail rest

/-- The rule-5 pass condition as stated by the spec, with the closing-delimiter
requirement spelled out: the document (after trimming leading whitespace)
starts with `---`, and somewhere at a line start there is `---`, optional
whitespace ending in a newline, at least one (possibly empty) line of content,
and a newline followed by a closing `---`. -/
def FMValidSpec (raw : Str) : Prop :=
  ("---".data <+: lstrip raw) ∧
  ∃ pre w mid post,
    raw = pre ++ "---".data ++ w ++ '\n' :: (mid ++ '\n' :: ("---".data ++ post)) ∧
    (pre = [] ∨ ∃ p2, pre = p2 ++ ['\n']) ∧
    (∀ c ∈ w, isPyWs c = true)

/-- Number of results whose label starts with the given rule key. -/
def ruleCount (k : Str) (rs : List CheckResult) : Nat :=
  rs.countP (fun r => k.isPrefixOf r.label)

/-- First result whose label starts with the given rule key. -/
def ruleFind (k : Str) (rs : List CheckResult) : Option CheckResult :=
  rs.find? (fun r => k.isPrefixOf r.label)

/-- A concrete well-formed input, used to instantiate theorems. -/
def sampleGood : FsInput :=
  { isDir := true, skillDirAbs := "/s/my-skill".data, folderName := "my-skill".data,
    entries := ["SKILL.md".data],
    raw := "---\nname: my-skill\ndescription: Use when testing\n---\nBody ok\n".data }

/-- A concrete input whose path is not a directory. -/
def sampleNoDir : FsInput :=
  { isDir := false, skillDirAbs := [], folderName := [], entries := [], raw := [] }

/-- A concrete input whose manifest has the wrong case. -/
def sampleWrongCase : FsInput :=
  { isDir := true, skillDirAbs := [], folderName := ['x'], entries := ["skill.md".data],
    raw := [] }

/-- A concrete input whose manifest has an opening `---` but no closing one. -/
def sampleNoClose : FsInput :=
  { isDir := true, skillDirAbs := [], folderName := "my-skill".data,
    entries := ["SKILL.md".data], raw := "---\nname: my-skill\n".data }

/-- A concrete input whose opening `---` is immediately followed by the
closing `---`, with no content line between them. -/
def sampleTightFM : FsInput :=
  { isDir := true, skillDirAbs := [], folderName := "my-skill".data,
    entries := ["SKILL.md".data], raw := "---\n---".data }

/-- A concrete input whose document begins with whitespace before the
opening `---`. -/
def sampleLeadingWs : FsInput :=
  { isDir := true, skillDirAbs := [], folderName := "my-skill".data,
    entries := ["SKILL.md".data], raw := "\n---\nx\n---".data }

/-- A concrete input whose name embeds the substring `claude`. -/
def sampleClaudeish : FsInput :=
  { isDir := true, skillDirAbs := [], folderName := "my-claudeish-skill".data,
    entries := ["SKILL.md".data],
    raw := "---\nname: my-claudeish-skill\ndescription: Use when x\n---\nok\n".data }

/-- A concrete input whose name starts with the segment `claude`. -/
def sampleClaudeHelper : FsInput :=
  { isDir := true, skillDirAbs := [], folderName := "claude-helper".data,
    entries := ["SKILL.md".data],
    raw := "---\nname: claude-helper\ndescription: Use when x\n---\nok\n".data }

/-! ## Helper lemmas -/

theorem takeWhile_all {α : Type} {p : α → Bool} {a : List α} (h : ∀ c ∈ a, p c = true) :
    a.takeWhile p = a := by
  induction a with
  | nil => rfl
  | cons c rest ih =>
    rw [List.takeWhile_cons, if_pos (h c (by simp)), ih (fun x hx => h x (by simp [hx]))]

theorem takeWhile_append_stop {α : Type} {p : α → Bool} {a : List α}
    (h : ∀ c ∈ a, p c = true) {c : α} (hc : p c = false) (r : List α) :
    (a ++ c :: r).takeWhile p = a := by
  induction a with
  | nil => simp [List.takeWhile_cons, hc]
  | cons x rest ih =>
    rw [List.cons_append, List.takeWhile_cons, if_pos (h x (by simp)),
      ih (fun y hy => h y (by simp [hy]))]

theorem dropWhile_append_stop {α : Type} {p : α → Bool} {a : List α}
    (h : ∀ c ∈ a, p c = true) {c : α} (hc : p c = false) (r : List α) :
    (a ++ c :: r).dropWhile p = c :: r := by
  induction a with
  | nil => simp [List.dropWhile_cons, hc]
  | cons x rest ih =>
    rw [List.cons_append, List.dropWhile_cons, if_pos (h x (by simp)),
      ih (fun y hy => h y (by simp [hy]))]

theorem dropWhile_all {α : Type} {p : α → Bool} {a : List α} (h : ∀ c ∈ a, p c = true) :
    a.dropWhile p = [] := by
  induction a with
  | nil => rfl
  | cons c rest ih =>
    rw [List.dropWhile_cons, if_pos (h c (by simp)), ih (fun x hx => h x (by simp [hx]))]

theorem ne_nil_isEmpty {α : Type} {l : List α} (h : l ≠ []) : l.isEmpty = false := by
  cases l with
  | nil => exact absurd rfl h
  | cons x xs => rfl

theorem rstripBy_nil (p : Char → Bool) : rstripBy p [] = [] := rfl

theorem rstripBy_cons_ne {p : Char → Bool} {rest : Str} (h : rstripBy p rest ≠ []) (c : Char) :
    rstripBy p (c :: rest) = c :: rstripBy p rest := by
  rcases hx : rstripBy p rest with _ | ⟨x, xs⟩
  · exact absurd hx h
  · simp only [rstripBy, hx]

theorem rstripBy_cons_nil_pos {p : Char → Bool} {rest : Str} (h : rstripBy p rest = [])
    {c : Char} (hc : p c = true) : rstripBy p (c :: rest) = [] := by
  simp only [rstripBy, h, hc, if_true]

theorem rstripBy_cons_nil_neg {p : Char → Bool} {rest : Str} (h : rstripBy p rest = [])
    {c : Char} (hc : p c = false) : rstripBy p (c :: rest) = [c] := by
  simp only [rstripBy, h, hc]
  simp

theorem rstripBy_eq_nil_iff {p : Char → Bool} {s : Str} :
    rstripBy p s = [] ↔ ∀ c ∈ s, p c = true := by
  induction s with
  | nil => simp [rstripBy]
  | cons c rest ih =>
    by_cases h : rstripBy p rest = []
    · have hrest : ∀ x ∈ rest, p x = true := ih.mp h
      by_cases hc : p c = true
      · rw [rstripBy_cons_nil_pos h hc]
        simp only [true_iff, List.mem_cons]
        intro x hx
        rcases hx with rfl | hx'
        · exact hc
        · exact hrest x hx'
      · have hc' : p c = false := by simpa using hc
        rw [rstripBy_cons_nil_neg h hc']
        simp only [List.cons_ne_nil, false_iff]
        intro hall
        exact hc (hall c (by simp))
    · rw [rstripBy_cons_ne h]
      simp only [List.cons_ne_nil, false_iff]
      intro hall
      exact h (ih.mpr fun x hx => hall x (List.mem_cons_of_mem _ hx))

theorem rstripBy_append {p : Char → Bool} {b : Str} (hb : rstripBy p b ≠ []) (a : Str) :
    rstripBy p (a ++ b) = a ++ rstripBy p b := by
  induction a with
  | nil => rfl
  | cons c rest ih =>
    have hne : rstripBy p (rest ++ b) ≠ [] := by
      rw [ih]
      intro h
      exact hb (List.append_eq_nil.mp h).2
    rw [List.cons_append, rstripBy_cons_ne hne, ih, List.cons_append]

theorem rstripBy_idem {p : Char → Bool} (s : Str) :
    rstripBy p (rstripBy p s) = rstripBy p s := by
  induction s with
  | nil => rfl
  | cons c rest ih =>
    by_cases h : rstripBy p rest = []
    · by_cases hc : p c = true
      · rw [rstripBy_cons_nil_pos h hc]
        rfl
      · have hc' : p c = false := by simpa using hc
        rw [rstripBy_cons_nil_neg h hc']
        exact rstripBy_cons_nil_neg (rstripBy_nil p) hc'
    · have h2 : rstripBy p (rstripBy p rest) ≠ [] := by
        rw [ih]
        exact h
      rw [rstripBy_cons_ne h, rstripBy_cons_ne h2, ih]

theorem lstripBy_cons (p : Char → Bool) (c : Char) (rest : Str) :
    lstripBy p (c :: rest) = if p c then lstripBy p rest else c :: rest := by
  simp only [lstripBy, List.dropWhile_cons]

theorem lstripBy_idem {p : Char → Bool} (s : Str) : lstripBy p (lstripBy p s) = lstripBy p s := by
  induction s with
  | nil => rfl
  | cons c rest ih =>
    rw [lstripBy_cons]
    by_cases hc : p c = true
    · rw [if_pos hc]
      exact ih
    · rw [if_neg (by simpa using hc), lstripBy_cons, if_neg (by simpa using hc)]

theorem lstripBy_rstripBy_comm {p : Char → Bool} (z : Str) :
    rstripBy p (lstripBy p (rstripBy p z)) = rstripBy p (lstripBy p z) := by
  induction z with
  | nil => rfl
  | cons c z' ih =>
    by_cases hc : p c = true
    · by_cases h : rstripBy p z' = []
      · have hall : ∀ d ∈ z', p d = true := rstripBy_eq_nil_iff.mp h
        have h2 : lstripBy p z' = [] := dropWhile_all hall
        rw [rstripBy_cons_nil_pos h hc, lstripBy_cons, if_pos hc, h2]
        rfl
      · rw [rstripBy_cons_ne h, lstripBy_cons, if_pos hc, lstripBy_cons, if_pos hc]
        exact ih
    · have hc' : p c = false := by simpa using hc
      have hcons : ∀ (y : Str), lstripBy p (c :: y) = c :: y := fun y => by
        rw [lstripBy_cons, if_neg (by simp [hc'])]
      by_cases h : rstripBy p z' = []
      · rw [rstripBy_cons_nil_neg h hc', hcons, hcons, rstripBy_cons_nil_neg h hc',
          rstripBy_cons_nil_neg (rstripBy_nil p) hc']
      · have h2 : rstripBy p (rstripBy p z') ≠ [] := by
          rw [rstripBy_idem]
          exact h
        rw [rstripBy_cons_ne h, hcons, hcons, rstripBy_cons_ne h2, rstripBy_idem,
          rstripBy_cons_ne h]

theorem containsSub_spec {pat : Str} : ∀ {s : Str}, containsSub pat s = true ↔ pat <:+: s := by
  intro s
  induction s with
  | nil =>
    show pat.isPrefixOf [] = true ↔ _
    rw [List.isPrefixOf_iff_prefix]
    constructor
    · intro h
      exact h.isInfix
    · intro h
      obtain ⟨a, b, hab⟩ := h
      have : pat = [] := by
        have := List.append_eq_nil.mp hab
        exact (List.append_eq_nil.mp this.1).2
      rw [this]
  | cons c rest ih =>
    show (pat.isPrefixOf (c :: rest) || containsSub pat rest) = true ↔ _
    rw [Bool.or_eq_true, ih, List.isPrefixOf_iff_prefix]
    constructor
    · rintro (⟨t, ht⟩ | ⟨a, b, hab⟩)
      · exact ⟨[], t, by simpa using ht⟩
      · exact ⟨c :: a, b, by rw [← hab]; simp⟩
    · rintro ⟨a, b, hab⟩
      rcases a with _ | ⟨x, a'⟩
      · left
        exact ⟨b, by simpa using hab⟩
      · right
        rw [List.cons_append, List.cons_append, List.cons.injEq] at hab
        exact ⟨a', b, hab.2⟩

/-! ## The kebab-case predicate (claim C3) -/

theorem isKebabChar_iff {c : Char} :
    isKebabChar c = true ↔ (c.isLower = true ∨ c.isDigit = true) := by
  simp [isKebabChar, Bool.or_eq_true]

theorem kebabRun_cons (b : Bool) (c : Char) (l : Str) :
    kebabRun b (c :: l) =
      if isKebabChar c = true then kebabRun true l
      else if c = '-' then b && kebabRun false l
      else false := rfl

theorem kebabRun_seg {seg : Str} (h : ∀ c ∈ seg, isKebabChar c = true) (hne : seg ≠ []) :
    ∀ (b : Bool) (r : Str), kebabRun b (seg ++ r) = kebabRun true r := by
  induction seg with
  | nil => exact absurd rfl hne
  | cons c rest ih =>
    intro b r
    have hc : isKebabChar c = true := h c (by simp)
    rw [List.cons_append, kebabRun_cons, if_pos hc]
    rcases rest with _ | ⟨x, xs⟩
    · rfl
    · exact ih (fun y hy => h y (by simp [hy])) (by simp) true r

theorem joinDash_accept (segs : List Str) (hne : segs ≠ [])
    (hall : ∀ seg ∈ segs, KebabSeg seg) : is_kebab_case (joinDash segs) = true := by
  induction segs with
  | nil => exact absurd rfl hne
  | cons seg rest ih =>
    obtain ⟨hsne, hchars⟩ := hall seg (by simp)
    have hchars' : ∀ c ∈ seg, isKebabChar c = true :=
      fun c hc => isKebabChar_iff.mpr (hchars c hc)
    show kebabRun false (joinDash (seg :: rest)) = true
    rcases rest with _ | ⟨s2, r2⟩
    · show kebabRun false (seg ++ dashTail []) = true
      rw [show dashTail [] = [] from rfl, kebabRun_seg hchars' hsne]
      rfl
    · show kebabRun false (seg ++ dashTail (s2 :: r2)) = true
      rw [show dashTail (s2 :: r2) = '-' :: joinDash (s2 :: r2) from rfl,
        kebabRun_seg hchars' hsne, kebabRun_cons]
      rw [if_neg (by decide), if_pos rfl, Bool.true_and]
      exact ih (by simp) (fun s hs => hall s (by simp [hs]))

theorem kebabRun_decomp (s : Str) :
    (kebabRun false s = true →
      ∃ segs, segs ≠ [] ∧ (∀ seg ∈ segs, KebabSeg seg) ∧ s = joinDash segs) ∧
    (kebabRun true s = true →
      ∃ seg0 segs, (∀ c ∈ seg0, isKebabChar c = true) ∧ (∀ seg ∈ segs, KebabSeg seg) ∧
        s = seg0 ++ dashTail segs) := by
  induction s with
  | nil =>
    constructor
    · intro h
      exact absurd h (by simp [kebabRun])
    · intro _
      exact ⟨[], [], by simp, by simp, rfl⟩
  | cons c rest ih =>
    obtain ⟨ihF, ihT⟩ := ih
    by_cases hc : isKebabChar c = true
    · have hstep : ∀ (b : Bool), kebabRun b (c :: rest) = kebabRun true rest :=
        fun b => by rw [kebabRun_cons, if_pos hc]
      have hkc : c.isLower = true ∨ c.isDigit = true := isKebabChar_iff.mp hc
      constructor
      · intro h
        rw [hstep] at h
        obtain ⟨seg0, segs, h0, hsegs, heq⟩ := ihT h
        refine ⟨(c :: seg0) :: segs, by simp, ?_, ?_⟩
        · intro seg hseg
          rcases List.mem_cons.mp hseg with rfl | hmem
          · refine ⟨by simp, ?_⟩
            intro x hx
            rcases List.mem_cons.mp hx with rfl | hx'
            · exact hkc
            · exact isKebabChar_iff.mp (h0 x hx')
          · exact hsegs seg hmem
        · show c :: rest = (c :: seg0) ++ dashTail segs
          rw [List.cons_append, heq]
      · intro h
        rw [hstep] at h
        obtain ⟨seg0, segs, h0, hsegs, heq⟩ := ihT h
        refine ⟨c :: seg0, segs, ?_, hsegs, ?_⟩
        · intro x hx
          rcases List.mem_cons.mp hx with rfl | hx'
          · exact hc
          · exact h0 x hx'
        · rw [List.cons_append, heq]
    · by_cases hd : c = '-'
      · subst hd
        constructor
        · intro h
          rw [kebabRun_cons, if_neg hc, if_pos rfl, Bool.false_and] at h
          exact absurd h (by simp)
        · intro h
          rw [kebabRun_cons, if_neg hc, if_pos rfl, Bool.true_and] at h
          obtain ⟨segs, hne, hsegs, heq⟩ := ihF h
          refine ⟨[], segs, by simp, hsegs, ?_⟩
          rcases segs with _ | ⟨s1, r1⟩
          · exact absurd rfl hne
          · show '-' :: rest = [] ++ dashTail (s1 :: r1)
            rw [List.nil_append, show dashTail (s1 :: r1) = '-' :: joinDash (s1 :: r1) from rfl,
              heq]
      · constructor <;>
          (intro h
           rw [kebabRun_cons, if_neg hc, if_neg hd] at h
           exact absurd h (by simp))

theorem kebabRun_bad {c : Char} (hbad : isKebabChar c = false) (hnd : c ≠ '-') {s : Str}
    (hmem : c ∈ s) : ∀ (b : Bool), kebabRun b s = false := by
  induction s with
  | nil => exact absurd hmem (List.not_mem_nil c)
  | cons x rest ih =>
    intro b
    rw [kebabRun_cons]
    by_cases hx : isKebabChar x = true
    · have hcx : c ≠ x := fun h => by rw [h, hx] at hbad; cases hbad
      have hmem' : c ∈ rest := by
        rcases List.mem_cons.mp hmem with h | h
        · exact absurd h hcx
        · exact h
      rw [if_pos hx, ih hmem']
    · by_cases hxd : x = '-'
      · have hmem' : c ∈ rest := by
          rcases List.mem_cons.mp hmem with h | h
          · rw [hxd] at h
            exact absurd h hnd
          · exact h
        rw [if_neg hx, if_pos hxd, ih hmem']
        simp
      · rw [if_neg hx, if_neg hxd]

theorem kebabRun_trailing (t : Str) : ∀ (b : Bool), kebabRun b (t ++ ['-']) = false := by
  induction t with
  | nil =>
    intro b
    cases b <;> rfl
  | cons x rest ih =>
    intro b
    rw [List.cons_append, kebabRun_cons]
    by_cases hx : isKebabChar x = true
    · rw [if_pos hx, ih]
    · by_cases hxd : x = '-'
      · rw [if_neg hx, if_pos hxd, ih]
        simp
      · rw [if_neg hx, if_neg hxd]

theorem kebabRun_doubledash (a b2 : Str) : ∀ (fl : Bool), kebabRun fl (a ++ '-' :: '-' :: b2) = false := by
  induction a with
  | nil =>
    intro fl
    rw [List.nil_append, kebabRun_cons, if_neg (by decide), if_pos rfl, kebabRun_cons,
      if_neg (by decide), if_pos rfl, Bool.false_and, Bool.and_false]
  | cons x rest ih =>
    intro fl
    rw [List.cons_append, kebabRun_cons]
    by_cases hx : isKebabChar x = true
    · rw [if_pos hx, ih]
    · by_cases hxd : x = '-'
      · rw [if_neg hx, if_pos hxd, ih]
        simp
      · rw [if_neg hx, if_neg hxd]

/-- Claim C3: `is_kebab_case` (used by rule 4 on the folder basename and rule 7
on the extracted name) accepts a string iff it is one or more nonempty
lowercase-alphanumeric segments joined by single hyphens; strings containing
an uppercase letter, an underscore, a double hyphen, or a leading or trailing
hyphen are rejected. -/
theorem C3_kebab_predicate (s : Str) :
    (is_kebab_case s = true ↔
      ∃ segs, segs ≠ [] ∧ (∀ seg ∈ segs, KebabSeg seg) ∧ s = joinDash segs) ∧
    (∀ c ∈ s, c ∈ upperLetters → is_kebab_case s = false) ∧
    ('_' ∈ s → is_kebab_case s = false) ∧
    (∀ a b, s = a ++ '-' :: '-' :: b → is_kebab_case s = false) ∧
    (∀ t, s = '-' :: t → is_kebab_case s = false) ∧
    (∀ t, s = t ++ ['-'] → is_kebab_case s = false) := by
  refine ⟨⟨fun h => (kebabRun_decomp s).1 h, ?_⟩, ?_, ?_, ?_, ?_, ?_⟩
  · rintro ⟨segs, h1, h2, rfl⟩
    exact joinDash_accept segs h1 h2
  · intro c hc hup
    have hprop : ∀ x ∈ upperLetters, isKebabChar x = false ∧ x ≠ '-' := by decide
    exact kebabRun_bad (hprop c hup).1 (hprop c hup).2 hc false
  · intro h
    exact kebabRun_bad (by decide) (by decide) h false
  · intro a b hab
    rw [show is_kebab_case s = kebabRun false s from rfl, hab]
    exact kebabRun_doubledash a b false
  · intro t ht
    rw [show is_kebab_case s = kebabRun false s from rfl, ht, kebabRun_cons,
      if_neg (by decide), if_pos rfl, Bool.false_and]
  · intro t ht
    rw [show is_kebab_case s = kebabRun false s from rfl, ht]
    exact kebabRun_trailing t false

/-! ## Reporter and entry point (claim C1) -/

theorem print_report_eq (rs : List CheckResult) :
    print_report rs = (rs.filter (fun r => r.passed = false)).length := by
  have gen : ∀ (l : List CheckResult) (n : Nat),
      l.foldl (fun n r => if r.passed then n else n + 1) n =
        n + (l.filter (fun r => r.passed = false)).length := by
    intro l
    induction l with
    | nil =>
      intro n
      simp
    | cons r rest ih =>
      intro n
      rw [List.foldl_cons, List.filter_cons]
      cases h : r.passed
      · rw [if_neg (by simp [h]), ih]
        simp [h]
        omega
      · rw [if_pos (by simp [h]), ih]
        simp [h]
  show List.foldl _ 0 rs = _
  rw [gen]
  simp

/-! ## Short-circuit structure of `run_checks` (claim C2) -/

theorem run_checks_dir_fail {fs : FsInput} (h : fs.isDir = false) :
    run_checks fs = [resultNoDir fs] := by
  unfold run_checks
  rw [if_pos h]

theorem run_checks_md_fail {fs : FsInput} (h1 : fs.isDir = true)
    (h2 : "SKILL.md".data ∉ fs.entries) : run_checks fs = [result1 fs, result2fail fs] := by
  unfold run_checks
  rw [if_neg (by simp [h1]), if_pos]
  rw [List.filter_eq_nil_iff]
  intro e he
  simp only [beq_iff_eq, Bool.not_eq_true]
  intro hcontra
  subst hcontra
  exact h2 he

theorem run_checks_full {fs : FsInput} (h1 : fs.isDir = true)
    (h2 : "SKILL.md".data ∈ fs.entries) :
    run_checks fs = [result1 fs, result2ok] ++ contentResults fs := by
  unfold run_checks
  rw [if_neg (by simp [h1]), if_neg]
  intro hnil
  rw [List.filter_eq_nil_iff] at hnil
  exact hnil _ h2 (by simp)

/-- Claim C1: `print_report` returns the number of CheckResults whose `passed`
field is false; the process exits 0 when that count is zero and 1 otherwise;
with no positional argument it prints the usage text and exits 1. -/
theorem C1_report_and_exit (argv : List Str) (fs : FsInput) :
    (argv.length < 2 → mainModel argv fs = { usagePrinted := true, exitCode := 1 }) ∧
    (2 ≤ argv.length →
      (mainModel argv fs).usagePrinted = false ∧
      print_report (run_checks fs) =
        ((run_checks fs).filter (fun r => r.passed = false)).length ∧
      ((mainModel argv fs).exitCode = 0 ↔
        ((run_checks fs).filter (fun r => r.passed = false)).length = 0) ∧
      ((mainModel argv fs).exitCode = 1 ↔
        ((run_checks fs).filter (fun r => r.passed = false)).length ≠ 0)) := by
  constructor
  · intro h
    unfold mainModel
    rw [if_pos h]
  · intro h
    have hnot : ¬argv.length < 2 := by omega
    unfold mainModel
    rw [if_neg hnot]
    refine ⟨rfl, print_report_eq _, ?_, ?_⟩
    · rw [print_report_eq]
      by_cases hz : ((run_checks fs).filter (fun r => r.passed = false)).length = 0
      · simp [hz]
      · have : ((run_checks fs).filter (fun r => r.passed = false)).length > 0 := by omega
        simp only [if_pos this]
        omega
    · rw [print_report_eq]
      by_cases hz : ((run_checks fs).filter (fun r => r.passed = false)).length = 0
      · simp [hz]
      · have : ((run_checks fs).filter (fun r => r.passed = false)).length > 0 := by omega
        simp only [if_pos this]
        exact iff_of_true trivial hz

/-- Witness for C1: the usage branch and the success-exit branch at concrete
inputs. -/
theorem C1_report_and_exit_witness :
    mainModel [] { isDir := false, skillDirAbs := [], folderName := [], entries := [], raw := [] } =
        { usagePrinted := true, exitCode := 1 } ∧
      (mainModel [[], []]
        { isDir := false, skillDirAbs := [], folderName := [], entries := [], raw := [] }).usagePrinted = false :=
  ⟨(C1_report_and_exit [] _).1 (by decide),
   ((C1_report_and_exit [[], []] _).2 (by decide)).1⟩

/-- Claim C2: only rules 1 and 2 abort the run; a missing directory yields
exactly one failure result, a missing exact-case `SKILL.md` stops the run after
rule 2 (reporting a wrong-case match when one exists), and otherwise every
applicable content rule contributes exactly one result to the single list. -/
theorem C2_short_circuit (fs : FsInput) :
    (fs.isDir = false →
      run_checks fs = [resultNoDir fs] ∧ (resultNoDir fs).passed = false) ∧
    (fs.isDir = true → "SKILL.md".data ∉ fs.entries →
      run_checks fs = [result1 fs, result2fail fs] ∧ (result2fail fs).passed = false ∧
      (∀ w ∈ fs.entries, lowerStr w = "skill.md".data → w ≠ "SKILL.md".data →
        ∃ w0, (result2fail fs).detail = "Found \x27".data ++ w0 ++ "\x27 instead.".data ∧
          w0 ∈ fs.entries ∧ lowerStr w0 = "skill.md".data ∧ w0 ≠ "SKILL.md".data)) ∧
    (fs.isDir = true → "SKILL.md".data ∈ fs.entries →
      run_checks fs = [result1 fs, result2ok] ++ contentResults fs ∧
      ruleCount "No README.md".data (run_checks fs) = 1 ∧
      ruleCount "Folder name is kebab-case:".data (run_checks fs) = 1 ∧
      ruleCount "YAML frontmatter".data (run_checks fs) = 1 ∧
      ruleCount "name field is present".data (run_checks fs) = 1 ∧
      ruleCount "description field is present".data (run_checks fs) = 1 ∧
      ruleCount "No XML angle brackets".data (run_checks fs) = 1 ∧
      ruleCount "Word count:".data (run_checks fs) = 1 ∧
      ruleCount "name is valid kebab-case:".data (run_checks fs) =
        (if nvOf fs = [] then 0 else 1) ∧
      ruleCount "name field matches".data (run_checks fs) =
        (if nvOf fs = [] then 0 else if folderOkOf fs = true then 1 else 0) ∧
      ruleCount "name contains".data (run_checks fs) = (if nvOf fs = [] then 0 else 1) ∧
      ruleCount "description length:".data (run_checks fs) = (if dvOf fs = [] then 0 else 1) ∧
      ruleCount "description contains no XML".data (run_checks fs) =
        (if dvOf fs = [] then 0 else 1) ∧
      ruleCount "description contains trigger".data (run_checks fs) =
        (if dvOf fs = [] then 0 else 1)) := by
  refine ⟨?_, ?_, ?_⟩
  · intro h
    exact ⟨run_checks_dir_fail h, rfl⟩
  · intro h1 h2
    refine ⟨run_checks_md_fail h1 h2, rfl, ?_⟩
    intro w hw hlow hne
    have hwc : w ∈ wrongCaseOf fs := by
      unfold wrongCaseOf
      rw [List.mem_filter]
      refine ⟨hw, ?_⟩
      simp only [Bool.and_eq_true, beq_iff_eq, Bool.not_eq_true]
      exact ⟨hlow, by simp [beq_eq_false_iff_ne, hne]⟩
    have hnil : wrongCaseOf fs ≠ [] := fun hz => by rw [hz] at hwc; exact absurd hwc (List.not_mem_nil w)
    rcases hx : wrongCaseOf fs with _ | ⟨w0, ws⟩
    · exact absurd hx hnil
    · have hw0 : w0 ∈ wrongCaseOf fs := by rw [hx]; simp
      unfold wrongCaseOf at hw0
      rw [List.mem_filter] at hw0
      obtain ⟨hw0mem, hw0p⟩ := hw0
      simp only [Bool.and_eq_true, beq_iff_eq, Bool.not_eq_true', beq_eq_false_iff_ne] at hw0p
      refine ⟨w0, ?_, hw0mem, hw0p.1, hw0p.2⟩
      show (if wrongCaseOf fs = [] then "SKILL.md not found.".data
        else "Found \x27".data ++ (wrongCaseOf fs).headD [] ++ "\x27 instead.".data) = _
      rw [if_neg hnil, hx]
      rfl
  · intro h1 h2
    have he := run_checks_full h1 h2
    refine ⟨he, ?_⟩
    unfold ruleCount
    rw [he]
    unfold contentResults
    by_cases hnv : nvOf fs = [] <;> by_cases hfo : folderOkOf fs = true <;>
        by_cases hdv : dvOf fs = [] <;>
      simp only [hnv, hfo, hdv, if_true, if_false, ite_true, ite_false, eq_self_iff_true,
        List.append_nil, List.nil_append] <;>
      exact ⟨rfl, rfl, rfl, rfl, rfl, rfl, rfl, rfl, rfl, rfl, rfl, rfl, rfl⟩

/-- Witness for C2 at concrete inputs: the two aborting branches and one
content-rule count. -/
theorem C2_short_circuit_witness :
    run_checks sampleNoDir = [resultNoDir sampleNoDir] ∧
    run_checks sampleWrongCase = [result1 sampleWrongCase, result2fail sampleWrongCase] ∧
    (∃ w0, (result2fail sampleWrongCase).detail = "Found \x27".data ++ w0 ++ "\x27 instead.".data ∧
      w0 ∈ sampleWrongCase.entries ∧ lowerStr w0 = "skill.md".data ∧ w0 ≠ "SKILL.md".data) ∧
    ruleCount "No README.md".data (run_checks sampleGood) = 1 :=
  ⟨((C2_short_circuit sampleNoDir).1 rfl).1,
   ((C2_short_circuit sampleWrongCase).2.1 rfl (by decide)).1,
   ((C2_short_circuit sampleWrongCase).2.1 rfl (by decide)).2.2 "skill.md".data (by decide)
     (by decide) (by decide),
   ((C2_short_circuit sampleGood).2.2 rfl (by decide)).2.1⟩

/-! ## Content-rule placement claims (C4, C7, C8) -/

theorem int_repr_sub {n : Nat} (h : 1024 < n) :
    Int.repr ((n : Int) - 1024) = Nat.repr (n - 1024) := by
  have heq : ((n : Int) - 1024) = ((n - 1024 : Nat) : Int) := by omega
  rw [heq]
  rfl

/-- Claim C4: the description length check (rule 11) is emitted only when a
nonempty description was extracted; it passes iff the extracted value has at
most 1024 characters (so 1024 passes and 1025 fails), and the failure's
remediation text reports the overflow amount, the extracted length minus
1024. -/
theorem C4_desc_length (fs : FsInput) (h1 : fs.isDir = true)
    (h2 : "SKILL.md".data ∈ fs.entries) :
    (dvOf fs = [] → ruleCount "description length:".data (run_checks fs) = 0) ∧
    (dvOf fs ≠ [] →
      ruleCount "description length:".data (run_checks fs) = 1 ∧
      ruleFind "description length:".data (run_checks fs) = some (result11 fs) ∧
      ((result11 fs).passed = true ↔ (dvOf fs).length ≤ 1024) ∧
      (1024 < (dvOf fs).length →
        (result11 fs).passed = false ∧
        (result11 fs).fix = "Shorten the description by ".data ++
          (Nat.repr ((dvOf fs).length - 1024)).data ++ " characters.".data)) := by
  have he := run_checks_full h1 h2
  constructor
  · intro hdv
    unfold ruleCount
    rw [he]
    unfold contentResults
    by_cases hnv : nvOf fs = [] <;> by_cases hfo : folderOkOf fs = true <;>
      simp only [hnv, hfo, hdv, if_true, if_false, ite_true, ite_false, eq_self_iff_true,
        List.append_nil, List.nil_append] <;> rfl
  · intro hdv
    refine ⟨?_, ?_, ?_, ?_⟩
    · unfold ruleCount
      rw [he]
      unfold contentResults
      by_cases hnv : nvOf fs = [] <;> by_cases hfo : folderOkOf fs = true <;>
        simp only [hnv, hfo, hdv, if_true, if_false, ite_true, ite_false, eq_self_iff_true,
          List.append_nil, List.nil_append] <;> rfl
    · unfold ruleFind
      rw [he]
      unfold contentResults
      by_cases hnv : nvOf fs = [] <;> by_cases hfo : folderOkOf fs = true <;>
        simp only [hnv, hfo, hdv, if_true, if_false, ite_true, ite_false, eq_self_iff_true,
          List.append_nil, List.nil_append] <;> rfl
    · rw [show (result11 fs).passed = decide ((dvOf fs).length ≤ 1024) from rfl,
        decide_eq_true_eq]
    · intro hover
      constructor
      · rw [show (result11 fs).passed = decide ((dvOf fs).length ≤ 1024) from rfl]
        rw [decide_eq_false_iff_not]
        omega
      · show "Shorten the description by ".data ++
            (Int.repr (((dvOf fs).length : Int) - 1024)).data ++ " characters.".data = _
        rw [int_repr_sub hover]

/-- Witness for C4: the concrete well-formed sample has a short description,
so rule 11 appears, points at `result11`, and passes. -/
theorem C4_desc_length_witness :
    ruleFind "description length:".data (run_checks sampleGood) = some (result11 sampleGood) ∧
      (result11 sampleGood).passed = true :=
  ⟨((C4_desc_length sampleGood rfl (by decide)).2 (by decide)).2.1,
   ((C4_desc_length sampleGood rfl (by decide)).2 (by decide)).2.2.1.mpr (by decide)⟩

/-- Claim C7: the reserved-keyword check (rule 9) fails iff the lowercased
extracted name contains `claude` or `anthropic` as a substring; in particular
the names `my-claudeish-skill` and `claude-helper` are rejected. -/
theorem C7_reserved (fs : FsInput) (h1 : fs.isDir = true)
    (h2 : "SKILL.md".data ∈ fs.entries) (h3 : nvOf fs ≠ []) :
    ruleCount "name contains".data (run_checks fs) = 1 ∧
    ruleFind "name contains".data (run_checks fs) = some (result9 fs) ∧
    ((result9 fs).passed = false ↔
      ("claude".data <:+: lowerStr (nvOf fs) ∨ "anthropic".data <:+: lowerStr (nvOf fs))) ∧
    (result9 sampleClaudeish).passed = false ∧
    (result9 sampleClaudeHelper).passed = false := by
  have he := run_checks_full h1 h2
  refine ⟨?_, ?_, ?_, by decide, by decide⟩
  · unfold ruleCount
    rw [he]
    unfold contentResults
    by_cases hfo : folderOkOf fs = true <;> by_cases hdv : dvOf fs = [] <;>
      simp only [h3, hfo, hdv, if_true, if_false, ite_true, ite_false, eq_self_iff_true,
        List.append_nil, List.nil_append] <;> rfl
  · unfold ruleFind
    rw [he]
    unfold contentResults
    by_cases hfo : folderOkOf fs = true <;> by_cases hdv : dvOf fs = [] <;>
      simp only [h3, hfo, hdv, if_true, if_false, ite_true, ite_false, eq_self_iff_true,
        List.append_nil, List.nil_append] <;> rfl
  · rw [show (result9 fs).passed = (reservedFoundOf fs).isNone from rfl]
    unfold reservedFoundOf reservedWords
    rcases hfind : [("claude".data : Str), "anthropic".data].find?
        (fun r => containsSub r (lowerStr (nvOf fs))) with _ | ⟨r0⟩
    · simp only [Option.isNone_none]
      rw [List.find?_eq_none] at hfind
      constructor
      · intro h
        cases h
      · intro h
        exfalso
        rcases h with h | h
        · exact absurd (containsSub_spec.mpr h) (by simpa using hfind "claude".data (by simp))
        · exact absurd (containsSub_spec.mpr h)
            (by simpa using hfind "anthropic".data (by simp))
    · simp only [Option.isNone_some]
      have := List.find?_some hfind
      have hmem := List.mem_of_find?_eq_some hfind
      constructor
      · intro _
        rcases List.mem_cons.mp hmem with rfl | hmem'
        · exact Or.inl (containsSub_spec.mp this)
        · rcases List.mem_cons.mp hmem' with rfl | habs
          · exact Or.inr (containsSub_spec.mp this)
          · exact absurd habs (List.not_mem_nil _)
      · intro _
        trivial

/-- Witness for C7 at the concrete claude-helper input. -/
theorem C7_reserved_witness :
    ruleFind "name contains".data (run_checks sampleClaudeHelper) =
        some (result9 sampleClaudeHelper) ∧
      (result9 sampleClaudeHelper).passed = false :=
  ⟨(C7_reserved sampleClaudeHelper rfl (by decide) (by decide)).2.1,
   (C7_reserved sampleClaudeHelper rfl (by decide) (by decide)).2.2.2.2⟩

/-- Claim C8: the word-count check (rule 15) passes iff the number of
whitespace-delimited tokens of the entire raw manifest document (frontmatter
and delimiters included) is at most 5000; its label also reports that count
over the raw document. -/
theorem C8_word_count (fs : FsInput) (h1 : fs.isDir = true)
    (h2 : "SKILL.md".data ∈ fs.entries) :
    ruleCount "Word count:".data (run_checks fs) = 1 ∧
    ruleFind "Word count:".data (run_checks fs) = some (result15 fs) ∧
    ((result15 fs).passed = true ↔ word_count fs.raw ≤ 5000) ∧
    (result15 fs).label = "Word count: ".data ++ (Nat.repr (word_count fs.raw)).data ++
      " words (limit: 5000)".data := by
  have he := run_checks_full h1 h2
  refine ⟨?_, ?_, ?_, rfl⟩
  · unfold ruleCount
    rw [he]
    unfold contentResults
    by_cases hnv : nvOf fs = [] <;> by_cases hfo : folderOkOf fs = true <;>
      by_cases hdv : dvOf fs = [] <;>
      simp only [hnv, hfo, hdv, if_true, if_false, ite_true, ite_false, eq_self_iff_true,
        List.append_nil, List.nil_append] <;> rfl
  · unfold ruleFind
    rw [he]
    unfold contentResults
    by_cases hnv : nvOf fs = [] <;> by_cases hfo : folderOkOf fs = true <;>
      by_cases hdv : dvOf fs = [] <;>
      simp only [hnv, hfo, hdv, if_true, if_false, ite_true, ite_false, eq_self_iff_true,
        List.append_nil, List.nil_append] <;> rfl
  · rw [show (result15 fs).passed = decide (word_count fs.raw ≤ 5000) from rfl,
      decide_eq_true_eq]

/-- Witness for C8 at the concrete well-formed input. -/
theorem C8_word_count_witness :
    ruleFind "Word count:".data (run_checks sampleGood) = some (result15 sampleGood) ∧
      (result15 sampleGood).passed = true :=
  ⟨(C8_word_count sampleGood rfl (by decide)).2.1,
   (C8_word_count sampleGood rfl (by decide)).2.2.1.mpr (by decide)⟩

/-! ## Scaffolder dry-run (claim C9, spec-modelled) -/

/-- Claim C9: scaffolding with `--dry-run` performs planning and preview
rendering only and never writes to the filesystem, regardless of which
optional directories are requested (the scaffolder script is absent from the
sources; the model follows the spec). -/
theorem C9_dry_run (a : ScaffoldArgs) (e : Bool) (h : a.dryRun = true) :
    (scaffoldRun a e).1 = [] ∧
    (scaffoldNameOk a.name = true → e = false →
      (scaffoldRun a e).2.2 = (scaffoldPlan a).map (fun pc => pc.1)) := by
  unfold scaffoldRun
  by_cases hn : scaffoldNameOk a.name = true
  · rw [if_neg (by simp [hn])]
    by_cases hex : e = true
    · rw [if_pos hex]
      exact ⟨rfl, fun _ hfalse => absurd hex (by simp [hfalse])⟩
    · rw [if_neg hex, if_pos h]
      exact ⟨rfl, fun _ _ => rfl⟩
  · have hn' : scaffoldNameOk a.name = false := by simpa using hn
    rw [if_pos (by simp [hn'])]
    exact ⟨rfl, fun habs => absurd habs hn⟩

/-- Witness for C9 at concrete arguments with all optional directories on. -/
theorem C9_dry_run_witness :
    (scaffoldRun
      { name := "my-skill".data, author := [], category := [], outputDir := "out".data,
        tags := [], withScripts := true, withReferences := true, withAssets := true,
        dryRun := true } false).1 = [] :=
  (C9_dry_run _ false rfl).1

/-! ## Rule-5 regex correctness (claim C5) -/

theorem wsNewline_iff : ∀ {t : Str},
    wsNewline t = true ↔
      ∃ w mid post, t = w ++ '\n' :: (mid ++ '\n' :: ("---".data ++ post)) ∧
        ∀ c ∈ w, isPyWs c = true := by
  intro t
  induction t with
  | nil =>
    rw [show wsNewline [] = false from rfl]
    constructor
    · intro h
      cases h
    · rintro ⟨w, mid, post, heq, -⟩
      exfalso
      rcases w with _ | ⟨cw, w'⟩ <;> simp at heq
  | cons c rest ih =>
    by_cases hcn : c = '\n'
    · subst hcn
      rw [show wsNewline ('\n' :: rest) = (containsSub "\n---".data rest || wsNewline rest)
        from by simp [wsNewline]]
      rw [Bool.or_eq_true, containsSub_spec, ih]
      constructor
      · rintro (⟨s, t', hst⟩ | ⟨w, mid, post, heq, hw⟩)
        · refine ⟨[], s, t', ?_, by simp⟩
          rw [List.nil_append]
          rw [← hst, show ("\n---".data : Str) = '\n' :: "---".data from rfl]
          simp [List.append_assoc]
        · refine ⟨'\n' :: w, mid, post, by simp [heq], ?_⟩
          intro x hx
          rcases List.mem_cons.mp hx with rfl | hx'
          · decide
          · exact hw x hx'
      · rintro ⟨w, mid, post, heq, hw⟩
        rcases w with _ | ⟨cw, w'⟩
        · rw [List.nil_append, List.cons.injEq] at heq
          left
          refine ⟨mid, post, ?_⟩
          rw [heq.2, show ("\n---".data : Str) = '\n' :: "---".data from rfl]
          simp [List.append_assoc]
        · rw [List.cons_append, List.cons.injEq] at heq
          right
          exact ⟨w', mid, post, heq.2, fun x hx => hw x (by simp [hx])⟩
    · by_cases hws : isPyWs c = true
      · rw [show wsNewline (c :: rest) = wsNewline rest from by simp [wsNewline, hcn, hws], ih]
        constructor
        · rintro ⟨w, mid, post, heq, hw⟩
          refine ⟨c :: w, mid, post, by simp [heq], ?_⟩
          intro x hx
          rcases List.mem_cons.mp hx with rfl | hx'
          · exact hws
          · exact hw x hx'
        · rintro ⟨w, mid, post, heq, hw⟩
          rcases w with _ | ⟨cw, w'⟩
          · rw [List.nil_append, List.cons.injEq] at heq
            exact absurd heq.1 hcn
          · rw [List.cons_append, List.cons.injEq] at heq
            exact ⟨w', mid, post, heq.2, fun x hx => hw x (by simp [hx])⟩
      · rw [show wsNewline (c :: rest) = false from by simp [wsNewline, hcn, hws]]
        constructor
        · intro h
          cases h
        · rintro ⟨w, mid, post, heq, hw⟩
          exfalso
          rcases w with _ | ⟨cw, w'⟩
          · rw [List.nil_append, List.cons.injEq] at heq
            exact hcn heq.1
          · rw [List.cons_append, List.cons.injEq] at heq
            exact hws (heq.1 ▸ hw cw (by simp))

theorem matchClose_iff {s : Str} :
    matchClose s = true ↔
      ∃ w mid post,
        s = "---".data ++ (w ++ '\n' :: (mid ++ '\n' :: ("---".data ++ post))) ∧
        ∀ c ∈ w, isPyWs c = true := by
  unfold matchClose
  rw [Bool.and_eq_true, List.isPrefixOf_iff_prefix]
  constructor
  · rintro ⟨⟨t, ht⟩, hws⟩
    have hdrop : s.drop 3 = t := by
      rw [← ht]
      rfl
    rw [hdrop] at hws
    obtain ⟨w, mid, post, hteq, hw⟩ := wsNewline_iff.mp hws
    exact ⟨w, mid, post, by rw [← ht, hteq], hw⟩
  · rintro ⟨w, mid, post, heq, hw⟩
    refine ⟨⟨_, heq.symm⟩, ?_⟩
    have hdrop : s.drop 3 = w ++ '\n' :: (mid ++ '\n' :: ("---".data ++ post)) := by
      rw [heq]
      rfl
    rw [hdrop]
    exact wsNewline_iff.mpr ⟨w, mid, post, rfl, hw⟩

theorem searchCloAux_iff : ∀ (s : Str) (b : Bool),
    searchCloAux b s = true ↔
      ∃ pre rest, s = pre ++ rest ∧ matchClose rest = true ∧
        ((pre = [] ∧ b = true) ∨ ∃ p2, pre = p2 ++ ['\n']) := by
  intro s
  induction s with
  | nil =>
    intro b
    rw [show searchCloAux b [] = false from rfl]
    constructor
    · intro h
      cases h
    · rintro ⟨pre, rest, heq, hm, -⟩
      exfalso
      have hrn : rest = [] := (List.append_eq_nil.mp heq.symm).2
      rw [hrn] at hm
      cases hm
  | cons c rest ih =>
    intro b
    rw [show searchCloAux b (c :: rest) =
        ((b && matchClose (c :: rest)) || searchCloAux (c == '\n') rest) from rfl]
    rw [Bool.or_eq_true, Bool.and_eq_true, ih]
    constructor
    · rintro (⟨hb, hm⟩ | ⟨pre', rest', heq, hm, hcond⟩)
      · exact ⟨[], c :: rest, rfl, hm, Or.inl ⟨rfl, hb⟩⟩
      · refine ⟨c :: pre', rest', by simp [heq], hm, ?_⟩
        rcases hcond with ⟨rfl, hb'⟩ | ⟨p2, rfl⟩
        · right
          refine ⟨[], ?_⟩
          rw [beq_iff_eq] at hb'
          simp [hb']
        · right
          exact ⟨c :: p2, by simp⟩
    · rintro ⟨pre, rest', heq, hm, hcond⟩
      rcases pre with _ | ⟨cp, pre'⟩
      · rcases hcond with ⟨-, hb⟩ | ⟨p2, hp2⟩
        · left
          rw [List.nil_append] at heq
          exact ⟨hb, heq ▸ hm⟩
        · exact absurd hp2 (by simp)
      · rw [List.cons_append, List.cons.injEq] at heq
        obtain ⟨rfl, heq2⟩ := heq
        right
        refine ⟨pre', rest', heq2, hm, ?_⟩
        rcases hcond with ⟨habs, -⟩ | ⟨p2, hp2⟩
        · cases habs
        · rcases p2 with _ | ⟨q, p2'⟩
          · rw [List.nil_append] at hp2
            injection hp2 with hq1 hq2
            left
            exact ⟨hq2, by rw [beq_iff_eq, hq1]⟩
          · rw [List.cons_append] at hp2
            injection hp2 with hq1 hq2
            right
            exact ⟨p2', hq2⟩

/-- Claim C5: the frontmatter delimiter check (rule 5) passes iff the document
after trimming leading whitespace starts with `---` and, at some line start,
`---` followed by whitespace, a newline, at least one (possibly empty) line of
content, a newline and a closing `---` occurs; an opening without a closing
fails, and an opening immediately followed by the closing fails. -/
theorem C5_frontmatter (fs : FsInput) (h1 : fs.isDir = true)
    (h2 : "SKILL.md".data ∈ fs.entries) :
    ruleCount "YAML frontmatter".data (run_checks fs) = 1 ∧
    ruleFind "YAML frontmatter".data (run_checks fs) = some (result5 fs) ∧
    ((result5 fs).passed = true ↔ FMValidSpec fs.raw) ∧
    (result5 sampleNoClose).passed = false ∧
    (result5 sampleTightFM).passed = false := by
  have he := run_checks_full h1 h2
  refine ⟨?_, ?_, ?_, by decide, by decide⟩
  · unfold ruleCount
    rw [he]
    unfold contentResults
    by_cases hnv : nvOf fs = [] <;> by_cases hfo : folderOkOf fs = true <;>
      by_cases hdv : dvOf fs = [] <;>
      simp only [hnv, hfo, hdv, if_true, if_false, ite_true, ite_false, eq_self_iff_true,
        List.append_nil, List.nil_append] <;> rfl
  · unfold ruleFind
    rw [he]
    unfold contentResults
    by_cases hnv : nvOf fs = [] <;> by_cases hfo : folderOkOf fs = true <;>
      by_cases hdv : dvOf fs = [] <;>
      simp only [hnv, hfo, hdv, if_true, if_false, ite_true, ite_false, eq_self_iff_true,
        List.append_nil, List.nil_append] <;> rfl
  · rw [show (result5 fs).passed =
        (("---".data).isPrefixOf (lstrip fs.raw) && searchClo fs.raw) from rfl,
      Bool.and_eq_true, List.isPrefixOf_iff_prefix]
    unfold FMValidSpec
    constructor
    · rintro ⟨hopen, hsearch⟩
      refine ⟨hopen, ?_⟩
      obtain ⟨pre, rest, heq, hm, hcond⟩ := (searchCloAux_iff fs.raw true).mp hsearch
      obtain ⟨w, mid, post, hreq, hw⟩ := matchClose_iff.mp hm
      refine ⟨pre, w, mid, post, ?_, ?_, hw⟩
      · rw [heq, hreq]
        simp [List.append_assoc]
      · rcases hcond with ⟨hp, -⟩ | ⟨p2, hp⟩
        · exact Or.inl hp
        · exact Or.inr ⟨p2, hp⟩
    · rintro ⟨hopen, pre, w, mid, post, heq, hcond, hw⟩
      refine ⟨hopen, ?_⟩
      apply (searchCloAux_iff fs.raw true).mpr
      refine ⟨pre, "---".data ++ (w ++ '\n' :: (mid ++ '\n' :: ("---".data ++ post))), ?_, ?_, ?_⟩
      · rw [heq]
        simp [List.append_assoc]
      · exact matchClose_iff.mpr ⟨w, mid, post, rfl, hw⟩
      · rcases hcond with hp | ⟨p2, hp⟩
        · exact Or.inl ⟨hp, rfl⟩
        · exact Or.inr ⟨p2, hp⟩

/-- Witness for C5: the well-formed sample passes rule 5 and the check result
is located in the run output. -/
theorem C5_frontmatter_witness :
    ruleFind "YAML frontmatter".data (run_checks sampleGood) = some (result5 sampleGood) ∧
      (result5 sampleGood).passed = true :=
  ⟨(C5_frontmatter sampleGood rfl (by decide)).2.1, by decide⟩

/-! ## Leading whitespace before the opening delimiter (claim C10) -/

theorem dropWhile_append_all {α : Type} {p : α → Bool} {w : List α}
    (h : ∀ c ∈ w, p c = true) (x : List α) : (w ++ x).dropWhile p = x.dropWhile p := by
  induction w with
  | nil => rfl
  | cons c w' ih =>
    rw [List.cons_append, List.dropWhile_cons, if_pos (h c (by simp)),
      ih (fun y hy => h y (by simp [hy]))]

/-- Claim C10 (implicit): for a document beginning with whitespace before the
opening `---`, the frontmatter/body split returns empty frontmatter and the
whole document as body, so the name-present check (rule 6) and the
description-present check (rule 10) fail, while the delimiter check (rule 5),
which trims leading whitespace before testing for `---`, passes on the same
document. -/
theorem C10_leading_ws (fs : FsInput) (w r : Str) (h1 : fs.isDir = true)
    (h2 : "SKILL.md".data ∈ fs.entries)
    (hraw : fs.raw = w ++ ("---".data ++ r)) (hwne : w ≠ [])
    (hws : ∀ c ∈ w, isPyWs c = true)
    (hclose : searchClo fs.raw = true) :
    count_chars_excluding_frontmatter fs.raw = ([], fs.raw) ∧
    nvOf fs = [] ∧ dvOf fs = [] ∧
    (result5 fs).passed = true ∧
    (result6 fs).passed = false ∧
    (result10 fs).passed = false ∧
    ruleFind "YAML frontmatter".data (run_checks fs) = some (result5 fs) ∧
    ruleFind "name field is present".data (run_checks fs) = some (result6 fs) ∧
    ruleFind "description field is present".data (run_checks fs) = some (result10 fs) := by
  rcases hwc : w with _ | ⟨c, w'⟩
  · exact absurd hwc hwne
  subst hwc
  have hcws : isPyWs c = true := hws c (by simp)
  have hcne : ('-' == c) = false := by
    rw [beq_eq_false_iff_ne]
    intro hcc
    rw [← hcc] at hcws
    exact absurd hcws (by decide)
  have hpre : ("---".data).isPrefixOf fs.raw = false := by
    rw [hraw, List.cons_append,
      show ("---".data).isPrefixOf (c :: (w' ++ ("---".data ++ r))) =
        (('-' == c) && ("--".data).isPrefixOf (w' ++ ("---".data ++ r))) from rfl,
      hcne, Bool.false_and]
  have hsplit : count_chars_excluding_frontmatter fs.raw = ([], fs.raw) := by
    unfold count_chars_excluding_frontmatter
    rw [if_neg (by simp [hpre])]
  have hfm : fmOf fs = [] := by
    rw [show fmOf fs = (count_chars_excluding_frontmatter fs.raw).1 from rfl, hsplit]
  have hnv : nvOf fs = [] := by
    rw [show nvOf fs = nameValueOf (fmOf fs) from rfl, hfm]
    rfl
  have hdv : dvOf fs = [] := by
    rw [show dvOf fs = descValueOf (fmOf fs) from rfl, hfm]
    rfl
  have hlst : lstrip fs.raw = "---".data ++ r := by
    rw [hraw, show lstrip (c :: w' ++ ("---".data ++ r)) =
      ((c :: w') ++ ("---".data ++ r)).dropWhile isPyWs from rfl]
    rw [dropWhile_append_all hws]
    rw [show ("---".data ++ r : Str) = '-' :: ("--".data ++ r) from rfl, List.dropWhile_cons,
      if_neg (by decide)]
  have hopen : ("---".data).isPrefixOf ("---".data ++ r) = true := by
    rw [List.isPrefixOf_iff_prefix]
    exact ⟨r, rfl⟩
  have hr5 : (result5 fs).passed = true := by
    rw [show (result5 fs).passed =
      (("---".data).isPrefixOf (lstrip fs.raw) && searchClo fs.raw) from rfl, hlst, hclose,
      hopen]
    rfl
  refine ⟨hsplit, hnv, hdv, hr5, ?_, ?_, ?_, ?_, ?_⟩
  · rw [show (result6 fs).passed = !(nvOf fs).isEmpty from rfl, hnv]
    rfl
  · rw [show (result10 fs).passed = !(dvOf fs).isEmpty from rfl, hdv]
    rfl
  · unfold ruleFind
    rw [run_checks_full h1 h2]
    unfold contentResults
    by_cases hfo : folderOkOf fs = true <;>
      simp only [hnv, hdv, hfo, if_true, if_false, ite_true, ite_false, eq_self_iff_true,
        List.append_nil, List.nil_append] <;> rfl
  · unfold ruleFind
    rw [run_checks_full h1 h2]
    unfold contentResults
    by_cases hfo : folderOkOf fs = true <;>
      simp only [hnv, hdv, hfo, if_true, if_false, ite_true, ite_false, eq_self_iff_true,
        List.append_nil, List.nil_append] <;> rfl
  · unfold ruleFind
    rw [run_checks_full h1 h2]
    unfold contentResults
    by_cases hfo : folderOkOf fs = true <;>
      simp only [hnv, hdv, hfo, if_true, if_false, ite_true, ite_false, eq_self_iff_true,
        List.append_nil, List.nil_append] <;> rfl

/-- Witness for C10 at the concrete leading-whitespace document. -/
theorem C10_leading_ws_witness :
    count_chars_excluding_frontmatter sampleLeadingWs.raw = ([], sampleLeadingWs.raw) ∧
      (result5 sampleLeadingWs).passed = true ∧
      (result6 sampleLeadingWs).passed = false :=
  ⟨(C10_leading_ws sampleLeadingWs ['\n'] "\nx\n---".data rfl (by decide) (by decide)
      (by decide) (by decide) (by decide)).1,
   (C10_leading_ws sampleLeadingWs ['\n'] "\nx\n---".data rfl (by decide) (by decide)
      (by decide) (by decide) (by decide)).2.2.2.1,
   (C10_leading_ws sampleLeadingWs ['\n'] "\nx\n---".data rfl (by decide) (by decide)
      (by decide) (by decide) (by decide)).2.2.2.2.1⟩

/-! ## Frontmatter field extraction (claim C6) -/

theorem dropWhile_head_false {α : Type} {p : α → Bool} :
    ∀ {l : List α} {c : α} {rest : List α}, l.dropWhile p = c :: rest → p c = false := by
  intro l
  induction l with
  | nil =>
    intro c rest h
    cases h
  | cons x xs ih =>
    intro c rest h
    rw [List.dropWhile_cons] at h
    by_cases hx : p x = true
    · rw [if_pos hx] at h
      exact ih h
    · rw [if_neg hx] at h
      injection h with h1 h2
      rw [← h1]
      simpa using hx

theorem rstrip_ne_of_strip_ne {d : Str} (h : strip d ≠ []) : rstripBy isPyWs d ≠ [] := by
  intro hz
  apply h
  have hall : ∀ c ∈ d, isPyWs c = true := rstripBy_eq_nil_iff.mp hz
  show rstripBy isPyWs (lstripBy isPyWs d) = []
  rw [show lstripBy isPyWs d = d.dropWhile isPyWs from rfl, dropWhile_all hall]
  rfl

theorem lstrip_ne_of_strip_ne {d : Str} (h : strip d ≠ []) : lstripBy isPyWs d ≠ [] := by
  intro hz
  apply h
  show rstripBy isPyWs (lstripBy isPyWs d) = []
  rw [hz]
  rfl

theorem strip_lstrip (v : Str) : strip (lstripBy isPyWs v) = strip v := by
  show rstripBy isPyWs (lstripBy isPyWs (lstripBy isPyWs v)) = rstripBy isPyWs (lstripBy isPyWs v)
  rw [lstripBy_idem]

theorem nameGroup_ws {w : Str} (hw : ∀ c ∈ w, isPyWs c = true) {c : Char}
    (hc : isPyWs c = false) (r : Str) :
    nameGroup (w ++ c :: r) = some ((c :: r).takeWhile (fun x => x ≠ '\n')) := by
  induction w with
  | nil =>
    rw [List.nil_append]
    simp [nameGroup, hc]
  | cons s w' ih =>
    rw [List.cons_append]
    have hs : isPyWs s = true := hw s (by simp)
    simp only [nameGroup, hs, if_true, ite_true]
    rw [ih (fun y hy => hw y (by simp [hy]))]

theorem findNameAux_head {s : Str} {g : Str}
    (hpre : ("name:".data).isPrefixOf s = true)
    (hg : nameGroup (s.drop 5) = some g) :
    findNameAux true s = some g := by
  rcases s with _ | ⟨c, rest⟩
  · cases hpre
  · simp only [findNameAux, hpre, Bool.and_true, Bool.true_and, if_true, ite_true, hg]

theorem findDescAux_skip {a : Str} (ha : '\n' ∉ a) :
    ∀ (r : Str), findDescAux false (a ++ '\n' :: r) = findDescAux true r := by
  induction a with
  | nil =>
    intro r
    rw [List.nil_append]
    simp [findDescAux]
  | cons c a' ih =>
    intro r
    rw [List.cons_append]
    have hc : (c == '\n') = false := by
      rw [beq_eq_false_iff_ne]
      intro hcc
      exact ha (by simp [hcc])
    simp only [findDescAux, Bool.false_and, if_false, ite_false, hc]
    exact ih (fun hmem => ha (by simp [hmem])) r

theorem flat_shape (ds : List Str) :
    (ds.map (fun d => "\n  ".data ++ d)).flatten = [] ∨
      ∃ ft, (ds.map (fun d => "\n  ".data ++ d)).flatten = '\n' :: ft := by
  rcases ds with _ | ⟨d1, rest⟩
  · left
    rfl
  · right
    refine ⟨("  ".data ++ d1) ++ ((rest.map (fun d => "\n  ".data ++ d)).flatten), ?_⟩
    rw [List.map_cons, List.flatten_cons]
    simp

theorem contLines_flat (ds : List Str) (hds : ∀ d ∈ ds, '\n' ∉ d) :
    ∀ (fuel : Nat), ds.length ≤ fuel →
      contLines fuel ((ds.map (fun d => "\n  ".data ++ d)).flatten) =
        (ds.map (fun d => "\n  ".data ++ d)).flatten := by
  induction ds with
  | nil =>
    intro fuel _
    rcases fuel with _ | fuel' <;> rfl
  | cons d1 rest ih =>
    intro fuel hlen
    rcases fuel with _ | fuel'
    · exact absurd hlen (by simp)
    rw [List.map_cons, List.flatten_cons]
    have hshape : ("\n  ".data ++ d1) ++ (rest.map (fun d => "\n  ".data ++ d)).flatten =
        '\n' :: ' ' :: ' ' :: (d1 ++ (rest.map (fun d => "\n  ".data ++ d)).flatten) := by
      simp
    rw [hshape]
    have hd1' : ∀ c ∈ d1, decide (c ≠ '\n') = true := by
      intro c hc
      rw [decide_eq_true_eq]
      intro hcc
      exact absurd (hcc ▸ hc) (hds d1 (by simp))
    have htake : (d1 ++ (rest.map (fun d => "\n  ".data ++ d)).flatten).takeWhile
        (fun x => x ≠ '\n') = d1 := by
      rcases flat_shape rest with hf | ⟨ft, hf⟩
      · rw [hf, List.append_nil]
        exact takeWhile_all hd1'
      · rw [hf]
        exact takeWhile_append_stop hd1' (by decide) ft
    have hdrop : (d1 ++ (rest.map (fun d => "\n  ".data ++ d)).flatten).dropWhile
        (fun x => x ≠ '\n') = (rest.map (fun d => "\n  ".data ++ d)).flatten := by
      rcases flat_shape rest with hf | ⟨ft, hf⟩
      · rw [hf, List.append_nil, dropWhile_all hd1']
      · rw [hf, dropWhile_append_stop hd1' (by decide) ft, ← hf]
    rw [show contLines (fuel' + 1)
        ('\n' :: ' ' :: ' ' :: (d1 ++ (rest.map (fun d => "\n  ".data ++ d)).flatten)) =
        '\n' :: ' ' :: ' ' :: ((d1 ++ (rest.map (fun d => "\n  ".data ++ d)).flatten).takeWhile
            (fun x => x ≠ '\n') ++
          contLines fuel' ((d1 ++ (rest.map (fun d => "\n  ".data ++ d)).flatten).dropWhile
            (fun x => x ≠ '\n'))) from rfl]
    rw [htake, hdrop, ih (fun d hd => hds d (by simp [hd])) fuel' (by simpa using hlen)]

theorem splitNLAux_no_nl {a : Str} (ha : '\n' ∉ a) :
    ∀ (acc : Str), splitNLAux a acc = [acc.reverse ++ a] := by
  induction a with
  | nil =>
    intro acc
    simp [splitNLAux]
  | cons c a' ih =>
    intro acc
    have hc : ¬c = '\n' := fun hcc => ha (by simp [hcc])
    rw [show splitNLAux (c :: a') acc =
      (if c = '\n' then acc.reverse :: splitNLAux a' [] else splitNLAux a' (c :: acc)) from rfl]
    rw [if_neg hc, ih (fun hmem => ha (by simp [hmem]))]
    simp

theorem splitNLAux_append_nl {a : Str} (ha : '\n' ∉ a) :
    ∀ (r : Str) (acc : Str),
      splitNLAux (a ++ '\n' :: r) acc = (acc.reverse ++ a) :: splitNLAux r [] := by
  induction a with
  | nil =>
    intro r acc
    rw [List.nil_append]
    rw [show splitNLAux ('\n' :: r) acc =
      (if '\n' = '\n' then acc.reverse :: splitNLAux r [] else splitNLAux r ('\n' :: acc)) from rfl]
    rw [if_pos rfl]
    simp
  | cons c a' ih =>
    intro r acc
    have hc : ¬c = '\n' := fun hcc => ha (by simp [hcc])
    rw [List.cons_append]
    rw [show splitNLAux (c :: (a' ++ '\n' :: r)) acc =
      (if c = '\n' then acc.reverse :: splitNLAux (a' ++ '\n' :: r) []
       else splitNLAux (a' ++ '\n' :: r) (c :: acc)) from rfl]
    rw [if_neg hc, ih (fun hmem => ha (by simp [hmem]))]
    simp

theorem splitNL_line_flat (ds : List Str) (hds : ∀ d ∈ ds, '\n' ∉ d) :
    ∀ (A : Str), '\n' ∉ A →
      splitNL (A ++ (ds.map (fun d => "\n  ".data ++ d)).flatten) =
        A :: ds.map (fun d => "  ".data ++ d) := by
  induction ds with
  | nil =>
    intro A hA
    show splitNLAux (A ++ []) [] = [A]
    rw [List.append_nil, splitNLAux_no_nl hA]
    simp
  | cons d1 rest ih =>
    intro A hA
    show splitNLAux _ [] = _
    rw [List.map_cons, List.flatten_cons]
    have hshape : A ++ (("\n  ".data ++ d1) ++ (rest.map (fun d => "\n  ".data ++ d)).flatten) =
        A ++ '\n' :: (("  ".data ++ d1) ++ (rest.map (fun d => "\n  ".data ++ d)).flatten) := by
      simp
    rw [hshape, splitNLAux_append_nl hA]
    have hA2 : '\n' ∉ "  ".data ++ d1 := by
      intro hmem
      rcases List.mem_append.mp hmem with h | h
      · simp at h
      · exact absurd h (hds d1 (by simp))
    have := ih (fun d hd => hds d (by simp [hd])) ("  ".data ++ d1) hA2
    rw [show splitNL (("  ".data ++ d1) ++ (rest.map (fun d => "\n  ".data ++ d)).flatten) =
        splitNLAux (("  ".data ++ d1) ++ (rest.map (fun d => "\n  ".data ++ d)).flatten) []
      from rfl] at this
    rw [this]
    simp

theorem flat_len (ds : List Str) :
    ds.length ≤ ((ds.map (fun d => "\n  ".data ++ d)).flatten).length := by
  induction ds with
  | nil => simp
  | cons d rest ih =>
    rw [List.map_cons, List.flatten_cons, List.length_append, List.length_cons]
    have h3 : ("\n  ".data ++ d).length = 3 + d.length := by
      rw [List.length_append]
      rfl
    rw [h3]
    omega

theorem descGroupAt_eq {d0 : Str} (hd1 : '\n' ∉ d0) (hd2 : strip d0 ≠ []) {ds : List Str}
    (hds : ∀ d ∈ ds, '\n' ∉ d) :
    descGroupAt (' ' :: (d0 ++ (ds.map (fun d => "\n  ".data ++ d)).flatten)) =
      ("description: ".data ++ d0) ++ (ds.map (fun d => "\n  ".data ++ d)).flatten := by
  rcases hdw : d0.dropWhile isPyWs with _ | ⟨e0, d0r⟩
  · exact absurd hdw (lstrip_ne_of_strip_ne hd2)
  have he0 : isPyWs e0 = false := dropWhile_head_false hdw
  have htw : ∀ c ∈ d0.takeWhile isPyWs, isPyWs c = true := fun c hc => List.mem_takeWhile_imp hc
  have hd0eq : d0 = d0.takeWhile isPyWs ++ (e0 :: d0r) := by
    rw [← hdw, List.takeWhile_append_dropWhile]
  have htk : (d0 ++ (ds.map (fun d => "\n  ".data ++ d)).flatten).takeWhile isPyWs =
      d0.takeWhile isPyWs := by
    conv_lhs => rw [hd0eq]
    rw [List.append_assoc, List.cons_append]
    exact takeWhile_append_stop htw he0 _
  have hdp : (d0 ++ (ds.map (fun d => "\n  ".data ++ d)).flatten).dropWhile isPyWs =
      e0 :: (d0r ++ (ds.map (fun d => "\n  ".data ++ d)).flatten) := by
    conv_lhs => rw [hd0eq]
    rw [List.append_assoc, List.cons_append]
    exact dropWhile_append_stop htw he0 _
  have hnd : ∀ c ∈ (e0 :: d0r), decide (c ≠ '\n') = true := by
    intro c hc
    rw [decide_eq_true_eq]
    intro hcc
    apply hd1
    subst hcc
    have hmem : '\n' ∈ d0.dropWhile isPyWs := by
      rw [hdw]
      exact hc
    exact (List.dropWhile_sublist isPyWs).subset hmem
  have htk2 : (e0 :: (d0r ++ (ds.map (fun d => "\n  ".data ++ d)).flatten)).takeWhile
      (fun x => x ≠ '\n') = e0 :: d0r := by
    rcases flat_shape ds with hf | ⟨ft, hf⟩
    · rw [hf, List.append_nil]
      exact takeWhile_all hnd
    · rw [hf, show (e0 :: (d0r ++ '\n' :: ft) : Str) = (e0 :: d0r) ++ '\n' :: ft from by simp]
      exact takeWhile_append_stop hnd (by decide) ft
  have hdp2 : (e0 :: (d0r ++ (ds.map (fun d => "\n  ".data ++ d)).flatten)).dropWhile
      (fun x => x ≠ '\n') = (ds.map (fun d => "\n  ".data ++ d)).flatten := by
    rcases flat_shape ds with hf | ⟨ft, hf⟩
    · rw [hf, List.append_nil, dropWhile_all hnd]
    · rw [hf, show (e0 :: (d0r ++ '\n' :: ft) : Str) = (e0 :: d0r) ++ '\n' :: ft from by simp,
        dropWhile_append_stop hnd (by decide) ft, ← hf]
  show "description:".data ++ ((' ' :: (d0 ++ _)).takeWhile isPyWs) ++ _ ++ _ = _
  rw [show ((' ' :: (d0 ++ (ds.map (fun d => "\n  ".data ++ d)).flatten)).takeWhile isPyWs) =
      ' ' :: ((d0 ++ (ds.map (fun d => "\n  ".data ++ d)).flatten).takeWhile isPyWs) from by
    rw [List.takeWhile_cons, if_pos (by decide)]]
  rw [show ((' ' :: (d0 ++ (ds.map (fun d => "\n  ".data ++ d)).flatten)).dropWhile isPyWs) =
      (d0 ++ (ds.map (fun d => "\n  ".data ++ d)).flatten).dropWhile isPyWs from by
    rw [List.dropWhile_cons, if_pos (by decide)]]
  rw [htk, hdp, htk2, hdp2, contLines_flat ds hds _ (flat_len ds)]
  conv_rhs => rw [hd0eq]
  rw [show ("description:".data ++ (' ' :: d0.takeWhile isPyWs) : Str) =
    "description: ".data ++ d0.takeWhile isPyWs from rfl]
  simp [List.append_assoc]

theorem cleanLine_first {d0 : Str} (hd2 : strip d0 ≠ []) :
    cleanLine ("description: ".data ++ d0) =
      strip (lstripSet ['>', '|'] (strip d0)) := by
  unfold cleanLine
  have hr : rstripBy isPyWs d0 ≠ [] := rstrip_ne_of_strip_ne hd2
  have hstrip : strip ("description: ".data ++ d0) = "description: ".data ++ rstripBy isPyWs d0 := by
    show rstripBy isPyWs (lstripBy isPyWs ("description: ".data ++ d0)) = _
    rw [show lstripBy isPyWs ("description: ".data ++ d0) = "description: ".data ++ d0 from rfl]
    exact rstripBy_append hr _
  rw [hstrip]
  rw [if_pos (show ("description:".data).isPrefixOf ("description: ".data ++ rstripBy isPyWs d0) =
    true from rfl)]
  rw [show ((("description: ".data ++ rstripBy isPyWs d0).drop 12 : Str)) =
    ' ' :: rstripBy isPyWs d0 from rfl]
  rw [show strip (' ' :: rstripBy isPyWs d0) = rstripBy isPyWs (lstripBy isPyWs (rstripBy isPyWs d0))
    from rfl]
  rw [lstripBy_rstripBy_comm]
  rfl

theorem cleanLine_cont {d : Str}
    (hp : ("description:".data).isPrefixOf (strip d) = false) :
    cleanLine ("  ".data ++ d) = strip d := by
  unfold cleanLine
  have hstrip : strip ("  ".data ++ d) = strip d := rfl
  rw [hstrip, if_neg (by simp [hp])]

/-- Claim C6: frontmatter field extraction. The `name` value is the
single-line scalar after the `name:` key with surrounding quotes stripped; the
`description` value supports YAML block-scalar style where continuation lines
are indented by exactly two spaces relative to the key, is formed by joining
the (stripped, nonempty) lines with single spaces, and has any block-scalar
indicator characters (`>` or `|`) stripped from the first line. -/
theorem C6_extraction (v d0 : Str) (ds : List Str)
    (hv1 : '\n' ∉ v) (hv2 : strip v ≠ [])
    (hd1 : '\n' ∉ d0) (hd2 : strip d0 ≠ [])
    (hds : ∀ d ∈ ds, '\n' ∉ d ∧ ("description:".data).isPrefixOf (strip d) = false) :
    nameValueOf (("name: ".data ++ v) ++
        ('\n' :: (("description: ".data ++ d0) ++ (ds.map (fun d => "\n  ".data ++ d)).flatten))) =
      stripSet ['"', '\''] (strip v) ∧
    descValueOf (("name: ".data ++ v) ++
        ('\n' :: (("description: ".data ++ d0) ++ (ds.map (fun d => "\n  ".data ++ d)).flatten))) =
      joinSpace ((strip (lstripSet ['>', '|'] (strip d0)) :: ds.map strip).filter
        (fun l => l ≠ [])) := by
  have hdsn : ∀ d ∈ ds, '\n' ∉ d := fun d hd => (hds d hd).1
  constructor
  · unfold nameValueOf
    rcases hlv : v.dropWhile isPyWs with _ | ⟨c0, vr⟩
    · exact absurd hlv (lstrip_ne_of_strip_ne hv2)
    have hc0 : isPyWs c0 = false := dropWhile_head_false hlv
    have hveq : v = v.takeWhile isPyWs ++ (c0 :: vr) := by
      rw [← hlv, List.takeWhile_append_dropWhile]
    have hnd : ∀ c ∈ (c0 :: vr), decide (c ≠ '\n') = true := by
      intro c hc
      rw [decide_eq_true_eq]
      intro hcc
      apply hv1
      subst hcc
      have hmem : '\n' ∈ v.dropWhile isPyWs := by
        rw [hlv]
        exact hc
      exact (List.dropWhile_sublist isPyWs).subset hmem
    have hfind : findNameAux true (("name: ".data ++ v) ++
        ('\n' :: (("description: ".data ++ d0) ++ (ds.map (fun d => "\n  ".data ++ d)).flatten))) =
        some (c0 :: vr) := by
      apply findNameAux_head
      · rfl
      · rw [show ((("name: ".data ++ v) ++
            ('\n' :: (("description: ".data ++ d0) ++
              (ds.map (fun d => "\n  ".data ++ d)).flatten))).drop 5 : Str) =
          ' ' :: (v ++ '\n' :: (("description: ".data ++ d0) ++
            (ds.map (fun d => "\n  ".data ++ d)).flatten)) from rfl]
        have hsplit2 : (' ' :: (v ++ '\n' :: (("description: ".data ++ d0) ++
            (ds.map (fun d => "\n  ".data ++ d)).flatten)) : Str) =
            (' ' :: v.takeWhile isPyWs) ++ (c0 :: (vr ++ '\n' :: (("description: ".data ++ d0) ++
              (ds.map (fun d => "\n  ".data ++ d)).flatten))) := by
          conv_lhs => rw [hveq]
          simp [List.append_assoc]
        rw [hsplit2]
        rw [nameGroup_ws (by
            intro c hc
            rcases List.mem_cons.mp hc with rfl | hc'
            · decide
            · exact List.mem_takeWhile_imp hc') hc0]
        rw [show ((c0 :: (vr ++ '\n' :: (("description: ".data ++ d0) ++
            (ds.map (fun d => "\n  ".data ++ d)).flatten))) : Str) =
          (c0 :: vr) ++ '\n' :: (("description: ".data ++ d0) ++
            (ds.map (fun d => "\n  ".data ++ d)).flatten) from by simp]
        rw [takeWhile_append_stop hnd (by decide)]
    rw [hfind]
    show stripSet ['"', '\''] (strip (c0 :: vr)) = stripSet ['"', '\''] (strip v)
    rw [show (c0 :: vr : Str) = lstripBy isPyWs v from hlv.symm, strip_lstrip]
  · unfold descValueOf
    have hfind : findDescAux true (("name: ".data ++ v) ++
        ('\n' :: (("description: ".data ++ d0) ++ (ds.map (fun d => "\n  ".data ++ d)).flatten))) =
        some (descGroupAt (' ' :: (d0 ++ (ds.map (fun d => "\n  ".data ++ d)).flatten))) := by
      rw [show findDescAux true (("name: ".data ++ v) ++
          ('\n' :: (("description: ".data ++ d0) ++
            (ds.map (fun d => "\n  ".data ++ d)).flatten))) =
        findDescAux false (("ame: ".data ++ v) ++
          ('\n' :: (("description: ".data ++ d0) ++
            (ds.map (fun d => "\n  ".data ++ d)).flatten))) from rfl]
      rw [findDescAux_skip (by
        intro hmem
        rcases List.mem_append.mp hmem with h | h
        · simp at h
        · exact hv1 h)]
      rw [show findDescAux true (("description: ".data ++ d0) ++
          (ds.map (fun d => "\n  ".data ++ d)).flatten) =
        some (descGroupAt (' ' :: (d0 ++ (ds.map (fun d => "\n  ".data ++ d)).flatten)))
        from rfl]
    rw [hfind]
    show descProcess (descGroupAt (' ' :: (d0 ++ (ds.map (fun d => "\n  ".data ++ d)).flatten))) = _
    rw [descGroupAt_eq hd1 hd2 hdsn]
    unfold descProcess
    rw [splitNL_line_flat ds hdsn ("description: ".data ++ d0) (by
      intro hmem
      rcases List.mem_append.mp hmem with h | h
      · simp at h
      · exact hd1 h)]
    rw [List.map_cons, cleanLine_first hd2, List.map_map]
    have hmapc : List.map (cleanLine ∘ fun d => "  ".data ++ d) ds = List.map strip ds :=
      List.map_congr_left (fun d hd => cleanLine_cont (hds d hd).2)
    rw [hmapc]

/-- Witness for C6 at a concrete block-scalar frontmatter. -/
theorem C6_extraction_witness :
    nameValueOf (("name: ".data ++ "my-skill".data) ++
        ('\n' :: (("description: ".data ++ ">".data ++
          ((["Use when foo".data, "and bar".data].map (fun d => "\n  ".data ++ d)).flatten))))) =
      stripSet ['"', '\''] (strip "my-skill".data) ∧
    descValueOf (("name: ".data ++ "my-skill".data) ++
        ('\n' :: (("description: ".data ++ ">".data ++
          ((["Use when foo".data, "and bar".data].map (fun d => "\n  ".data ++ d)).flatten))))) =
      joinSpace ((strip (lstripSet ['>', '|'] (strip ">".data)) ::
        ["Use when foo".data, "and bar".data].map strip).filter (fun l => l ≠ [])) := by
  have h := C6_extraction "my-skill".data ">".data ["Use when foo".data, "and bar".data]
    (by decide) (by decide) (by decide) (by decide) (by decide)
  exact ⟨h.1, h.2⟩

/-- Witness for C3: the double-hyphen rejection and the acceptance direction at
concrete inputs. -/
theorem C3_kebab_predicate_witness :
    is_kebab_case ('a' :: '-' :: '-' :: 'b' :: []) = false ∧
      is_kebab_case ('a' :: 'b' :: []) = true :=
  ⟨(C3_kebab_predicate _).2.2.2.1 ['a'] ['b'] rfl,
   (C3_kebab_predicate _).1.mpr ⟨[['a', 'b']], by simp,
     by
       intro seg hseg
       rw [List.mem_singleton] at hseg
       subst hseg
       exact ⟨by simp, by decide⟩,
     by decide⟩⟩

end VSkill
